import Mathlib

/-!
Verification of the tournament analysis module (`src/tournament_analysis.py`).

Python strings are modelled as `List Char` (`Str`), Python ints as `Int`/`Nat`.
The five stages — parser, filter, aggregator, ranker, reporter — are embedded
as executable Lean functions translated from the source.  Python's stable
`list.sort` is modelled by a stable insertion sort (`stableSort`), which is
extensionally equal to any stable sort for the total preorders used here.
Python dicts (which preserve insertion order) are modelled as association
lists with insert-at-end semantics.

Floating-point derived fields (`avg_attendance`, the `most_efficient_team`
report entry and `attendance_by_team`) are not modelled; no claim depends on
them.  The attendance sum that feeds `avg_attendance` is kept exactly.

The embedding assumes inputs are single lines in the sense that the only
newline subtleties of Python's `re` (`.` not matching `'\n'`, `$` matching
before a final newline) are modelled exactly for the fixed pattern used by
the parser, as analysed below.
-/

/-- Python strings as lists of characters. -/
abbrev Str := List Char

/-- Shorthand to write `Str` values from Lean string literals. -/
def chars (s : String) : Str := s.data

/-- The whitespace characters stripped by Python's `str.strip()` and matched
by `\s` in its `re` patterns (ASCII range). -/
def isPySpace (c : Char) : Bool :=
  c = ' ' || c = '\t' || c = '\n' || c = '\r' || c = '\x0b' || c = '\x0c'

/-- Python `str.strip()`: drop whitespace from both ends. -/
def pyStrip (l : Str) : Str :=
  ((l.dropWhile isPySpace).reverse.dropWhile isPySpace).reverse

/-- Python string `<` (lexicographic by code point). -/
def strLt : Str → Str → Bool
  | [], [] => false
  | [], _ :: _ => true
  | _ :: _, [] => false
  | a :: as, b :: bs => if a < b then true else if b < a then false else strLt as bs

/-- Python string `<=`, as used by `>=`/`<=` comparisons on date strings. -/
def strLe (a b : Str) : Bool := ! strLt b a

/-- Split off everything before the first occurrence of `sep` in `l`:
`some (before, after)` when `sep` occurs, `none` otherwise. -/
def splitFirst (sep : Str) : Str → Option (Str × Str)
  | [] => none
  | c :: rest =>
    if sep.isPrefixOf (c :: rest) then some ([], (c :: rest).drop sep.length)
    else
      match splitFirst sep rest with
      | none => none
      | some (a, b) => some (c :: a, b)

/-- Fuelled worker for `splitSep` (each step strictly shortens the string for
a nonempty separator, so `l.length` fuel suffices). -/
def splitSepFuel (sep : Str) : Nat → Str → List Str
  | 0, l => [l]
  | fuel + 1, l =>
    match splitFirst sep l with
    | none => [l]
    | some (a, b) => a :: splitSepFuel sep fuel b

/-- Python `str.split(sep)` for a nonempty separator. -/
def splitSep (sep l : Str) : List Str := splitSepFuel sep l.length l

/-- The literal `" | "` separator of the match-line format. -/
def sepBar : Str := [' ', '|', ' ']

/-- Split at the first occurrence of a single character. -/
def splitFirstChar (c : Char) : Str → Option (Str × Str)
  | [] => none
  | x :: rest =>
    if x = c then some ([], rest)
    else
      match splitFirstChar c rest with
      | none => none
      | some (a, b) => some (x :: a, b)

/-- Digit-sequence worker for Python `int()`: after an initial digit, accept
digits with single underscores between digits. -/
def pyDigitsGo (acc : Nat) : Str → Option Nat
  | [] => some acc
  | c :: rest =>
    if c = '_' then
      match rest with
      | [] => none
      | c2 :: rest2 =>
        if c2.isDigit then pyDigitsGo (acc * 10 + (c2.toNat - 48)) rest2 else none
    else if c.isDigit then pyDigitsGo (acc * 10 + (c.toNat - 48)) rest
    else none

/-- A nonempty Python integer-literal digit part. -/
def pyDigits : Str → Option Nat
  | [] => none
  | c :: rest => if c.isDigit then pyDigitsGo (c.toNat - 48) rest else none

/-- Python `int(string)`: strips whitespace, accepts an optional sign, then
digits (with underscore separators). `none` models `ValueError`. -/
def pyInt (s : Str) : Option Int :=
  match pyStrip s with
  | [] => none
  | c :: rest =>
    if c = '+' then (pyDigits rest).map (fun n => (n : Int))
    else if c = '-' then (pyDigits rest).map (fun n => -(n : Int))
    else (pyDigits (c :: rest)).map (fun n => (n : Int))

/-- Gregorian leap year, as used by `datetime.date`. -/
def isLeapYear (y : Int) : Bool := y % 4 = 0 && (y % 100 ≠ 0 || y % 400 = 0)

/-- Days in a month, as used by `datetime.date`. -/
def daysInMonth (y m : Int) : Int :=
  if m = 2 then (if isLeapYear y then 29 else 28)
  else if m = 4 || m = 6 || m = 9 || m = 11 then 30
  else 31

/-- The range check performed by `datetime.date(y, m, d)`
(`MINYEAR = 1`, `MAXYEAR = 9999`). -/
def validYMD (y m d : Int) : Bool :=
  1 ≤ y && y ≤ 9999 && 1 ≤ m && m ≤ 12 && 1 ≤ d && d ≤ daysInMonth y m

/-- The parser's date validation: `year, month, day = map(int, s.split('-'))`
followed by `datetime.date(year, month, day)`; `none` models the caught
`ValueError`. -/
def parseDate (s : Str) : Option (Int × Int × Int) :=
  match splitSep ['-'] s with
  | [ys, ms, ds] =>
    match pyInt ys, pyInt ms, pyInt ds with
    | some y, some m, some d => if validYMD y m d then some (y, m, d) else none
    | _, _, _ => none
  | _ => none

/-!
The team/score regex `^\s*(.*?)\s*\(([^:]+):([^)]+)\)\s*(.*?)\s*$` (applied
with `re.match` to the stripped middle segment) is embedded by the following
exact operational characterisation of Python's backtracking engine on this
fixed pattern:

* a string matches `\s*(.*?)\s*` (resp. `\s*(.*?)\s*$`) iff stripping its
  whitespace ends leaves a newline-free core, and the group captured under
  the engine's priorities (greedy leading `\s*`, then lazy `(.*?)`) is
  exactly that stripped core (`matchTrailing`);
* `([^:]+)` and `([^)]+)` capture exactly the (required nonempty) text up to
  the first `':'` / `')'`, which the engine cannot backtrack past;
* the engine tries candidate positions for `\(` in increasing order, so the
  match fixes the first `'('` whose prefix is coverable by `\s*(.*?)\s*` and
  whose tail matches the rest of the pattern.
-/

/-- Match `\s*(.*?)\s*$` against a whole string: strip whitespace from both
ends; fail if a newline survives (lazy `.` cannot cross `'\n'`), else return
the captured group. -/
def matchTrailing (t : Str) : Option Str :=
  let mid := pyStrip t
  if '\n' ∈ mid then none else some mid

/-- Match `([^:]+):([^)]+)\)\s*(.*?)\s*$` against the text following a
candidate `'('`. -/
def tailMatch (after : Str) : Option (Str × Str × Str) :=
  match splitFirstChar ':' after with
  | none => none
  | some (g2, rest) =>
    if g2 = [] then none
    else
      match splitFirstChar ')' rest with
      | none => none
      | some (g3, rest2) =>
        if g3 = [] then none
        else
          match matchTrailing rest2 with
          | none => none
          | some g4 => some (g2, g3, g4)

/-- Scan for the first `'('` at which both the prefix and the tail match;
`pre` holds the reversed prefix already scanned. -/
def matchTSAux (pre : Str) : Str → Option (Str × Str × Str × Str)
  | [] => none
  | c :: rest =>
    if c = '(' then
      match matchTrailing pre.reverse, tailMatch rest with
      | some g1, some (g2, g3, g4) => some (g1, g2, g3, g4)
      | _, _ => matchTSAux (c :: pre) rest
    else matchTSAux (c :: pre) rest

/-- The full-string match of the team/score regex, returning the four
captured groups `(team1, score1, score2, team2)`. -/
def matchTS (s : Str) : Option (Str × Str × Str × Str) := matchTSAux [] s

/-- A parsed match record (`parse_match_data`'s result dictionary). -/
structure MatchRecord where
  date : Str
  team1 : Str
  score1 : Nat
  team2 : Str
  score2 : Nat
  stadium : Str
  attendance : Nat
deriving DecidableEq

/-- The distinct `ValueError` messages raised by `parse_match_data`. -/
inductive ParseError where
  /-- "Invalid format: expected 4 parts separated by ' | '" -/
  | badParts
  /-- "Invalid date format: expected YYYY-MM-DD" -/
  | badDate
  /-- "Invalid teams/score format: expected 'Team1 (X:Y) Team2'" -/
  | badTeamsScore
  /-- "Team names and stadium cannot be empty" -/
  | emptyNames
  /-- "Invalid score: must be non-negative integers" -/
  | badScore
  /-- "Invalid attendance: must be a positive integer" -/
  | badAttendance
deriving DecidableEq

/-- The spec's FormatError/ValidationError classification (§7): structural
failures are FormatErrors, semantic ones ValidationErrors. -/
def ParseError.isFormat : ParseError → Bool
  | .badParts => true
  | .badDate => true
  | .badTeamsScore => true
  | _ => false

/-- `parse_match_data`: split on `" | "`, validate the date, match the
team/score regex, validate names/stadium, scores and attendance. -/
def parse_match_data (l : Str) : Except ParseError MatchRecord :=
  match splitSep sepBar l with
  | [date_str, teams_score_str, stadium_raw, attendance_str] =>
    match parseDate date_str with
    | none => .error .badDate
    | some _ =>
      match matchTS (pyStrip teams_score_str) with
      | none => .error .badTeamsScore
      | some (t1raw, s1s, s2s, t2raw) =>
        let team1 := pyStrip t1raw
        let team2 := pyStrip t2raw
        let stadium := pyStrip stadium_raw
        if team1 = [] ∨ team2 = [] ∨ stadium = [] then .error .emptyNames
        else
          match pyInt s1s, pyInt s2s with
          | some a, some b =>
            if a < 0 ∨ b < 0 then .error .badScore
            else
              match pyInt attendance_str with
              | some att =>
                if att ≤ 0 then .error .badAttendance
                else .ok ⟨date_str, team1, a.toNat, team2, b.toNat, stadium, att.toNat⟩
              | none => .error .badAttendance
          | _, _ => .error .badScore
  | _ => .error .badParts

/-!  Stable sorting (Python's `list.sort` / `sorted`). -/

/-- Insert `x` after every element `y` with `le y x` (stable insertion). -/
def insertSorted (le : α → α → Bool) (x : α) : List α → List α
  | [] => [x]
  | y :: ys => if le y x then y :: insertSorted le x ys else x :: y :: ys

/-- Stable insertion sort; extensionally equal to Python's stable sort for a
total preorder `le` (`le a b = ¬ key b < key a`). -/
def stableSort (le : α → α → Bool) (l : List α) : List α :=
  l.foldl (fun acc x => insertSorted le x acc) []

/-!  `filter_matches_by_criteria`. -/

/-- One keyword criterion of `filter_matches_by_criteria`.  The Python
function dispatches on the keyword name; any unrecognized keyword is a
no-op, modelled by `unrecognized`. -/
inductive FilterCriterion where
  | team (v : Str)
  | date_from (v : Str)
  | date_to (v : Str)
  | min_attendance (v : Int)
  | max_attendance (v : Int)
  | min_total_goals (v : Int)
  | stadium (v : Str)
  | unrecognized
deriving DecidableEq

/-- The branch of the criteria loop for one keyword. -/
def applyCriterion (ms : List MatchRecord) : FilterCriterion → List MatchRecord
  | .team v => ms.filter (fun m => m.team1 = v ∨ m.team2 = v)
  | .date_from v => ms.filter (fun m => strLe v m.date)
  | .date_to v => ms.filter (fun m => strLe m.date v)
  | .min_attendance v => ms.filter (fun m => v ≤ (m.attendance : Int))
  | .max_attendance v => ms.filter (fun m => (m.attendance : Int) ≤ v)
  | .min_total_goals v => ms.filter (fun m => v ≤ ((m.score1 : Int) + (m.score2 : Int)))
  | .stadium v => ms.filter (fun m => m.stadium = v)
  | .unrecognized => ms

/-- `filter_matches_by_criteria`: early return `[]` on an empty list, then
narrow by each criterion in turn. -/
def filter_matches_by_criteria (ms : List MatchRecord) (criteria : List FilterCriterion) :
    List MatchRecord :=
  if ms = [] then [] else criteria.foldl applyCriterion ms

/-- The keyword name of a criterion, for stating key-disjointness. -/
def critKey : FilterCriterion → Nat
  | .team _ => 0
  | .date_from _ => 1
  | .date_to _ => 2
  | .min_attendance _ => 3
  | .max_attendance _ => 4
  | .min_total_goals _ => 5
  | .stadium _ => 6
  | .unrecognized => 7

/-- Two criteria conflict when they are both recognized and use the same
keyword. -/
def sameRecognizedKey (a b : FilterCriterion) : Bool :=
  critKey a = critKey b && critKey a ≠ 7

/-!  `calculate_advanced_team_stats`. -/

/-- Which side a team played in a match. -/
inductive Venue where
  | home
  | away
deriving DecidableEq

/-- One `(date, venue, match)` entry of a team's match list. -/
structure Entry where
  date : Str
  venue : Venue
  m : MatchRecord
deriving DecidableEq

/-- The goals the team scored in an entry. -/
def Entry.teamScore (e : Entry) : Nat :=
  if e.venue = Venue.home then e.m.score1 else e.m.score2

/-- The goals the opponent scored in an entry. -/
def Entry.oppScore (e : Entry) : Nat :=
  if e.venue = Venue.home then e.m.score2 else e.m.score1

/-- Append an entry to a team's list in the insertion-ordered association
list (a new team is added at the end, as in a Python dict). -/
def addMatchEntry (tm : List (Str × List Entry)) (team : Str) (e : Entry) :
    List (Str × List Entry) :=
  match tm with
  | [] => [(team, [e])]
  | (t, es) :: rest =>
    if t = team then (t, es ++ [e]) :: rest else (t, es) :: addMatchEntry rest team e

/-- Build `team_matches`: scan the (sorted) matches once, appending a home
entry for `team1` and an away entry for `team2`. -/
def buildTeamMatches (ms : List MatchRecord) : List (Str × List Entry) :=
  ms.foldl
    (fun tm m =>
      addMatchEntry (addMatchEntry tm m.team1 ⟨m.date, Venue.home, m⟩)
        m.team2 ⟨m.date, Venue.away, m⟩)
    []

/-- Per-team cumulative statistics.  `avg_attendance` is a Python float
(`round(total/played, 2)`); the exact attendance sum it is computed from is
kept instead. -/
structure TeamStats where
  points : Nat
  matches_played : Nat
  wins : Nat
  draws : Nat
  losses : Nat
  goals_for : Nat
  goals_against : Nat
  goal_diff : Int
  home_points : Nat
  away_points : Nat
  win_streak : Nat
  total_attendance : Nat
deriving DecidableEq

/-- The all-zero initial accumulator of the per-team loop. -/
def zeroStats : TeamStats :=
  ⟨0, 0, 0, 0, 0, 0, 0, 0, 0, 0, 0, 0⟩

/-- One iteration of the per-team accumulation loop. -/
def statStep (acc : TeamStats) (e : Entry) : TeamStats :=
  let acc :=
    { acc with
      goals_for := acc.goals_for + e.teamScore
      goals_against := acc.goals_against + e.oppScore
      total_attendance := acc.total_attendance + e.m.attendance }
  if e.oppScore < e.teamScore then
    { acc with
      wins := acc.wins + 1
      points := acc.points + 3
      home_points := if e.venue = Venue.home then acc.home_points + 3 else acc.home_points
      away_points := if e.venue = Venue.home then acc.away_points else acc.away_points + 3 }
  else if e.teamScore = e.oppScore then
    { acc with
      draws := acc.draws + 1
      points := acc.points + 1
      home_points := if e.venue = Venue.home then acc.home_points + 1 else acc.home_points
      away_points := if e.venue = Venue.home then acc.away_points else acc.away_points + 1 }
  else { acc with losses := acc.losses + 1 }

/-- The reverse scan counting consecutive wins from the most recent match. -/
def winStreakCount : List Entry → Nat
  | [] => 0
  | e :: rest => if e.oppScore < e.teamScore then winStreakCount rest + 1 else 0

/-- Stable comparison on entry dates (`matches.sort(key=lambda x: x[0])`). -/
def entryLe (a b : Entry) : Bool := ! strLt b.date a.date

/-- Stable comparison on match dates (`sorted(matches_list, key=...['date'])`). -/
def matchDateLe (a b : MatchRecord) : Bool := ! strLt b.date a.date

/-- The statistics of one team from its entry list: re-sort by date, run the
accumulation loop, then the reverse win-streak scan. -/
def computeTeamStats (entries : List Entry) : TeamStats :=
  let sorted := stableSort entryLe entries
  let base := sorted.foldl statStep zeroStats
  { base with
    matches_played := sorted.length
    goal_diff := (base.goals_for : Int) - (base.goals_against : Int)
    win_streak := winStreakCount sorted.reverse }

/-- `calculate_advanced_team_stats`: sort by date, group entries per team,
compute each team's statistics (team order is dict insertion order). -/
def calculate_advanced_team_stats (ms : List MatchRecord) : List (Str × TeamStats) :=
  if ms = [] then []
  else
    (buildTeamMatches (stableSort matchDateLe ms)).map
      (fun p => (p.1, computeTeamStats p.2))

/-!  `rank_teams_advanced`. -/

/-- The working record built for each team before sorting. -/
structure TeamData where
  name : Str
  points : Nat
  goal_diff : Int
  goals_for : Nat
  wins : Nat
deriving DecidableEq

/-- Project a stats mapping entry to the ranking working record. -/
def toTeamData (p : Str × TeamStats) : TeamData :=
  ⟨p.1, p.2.points, p.2.goal_diff, p.2.goals_for, p.2.wins⟩

/-- `get_sort_key`: negated values of the recognized criteria, in tie-break
order (unrecognized names contribute nothing). -/
def get_sort_key (tb : List Str) (t : TeamData) : List Int :=
  tb.filterMap (fun c =>
    if c = chars "points" then some (-(t.points : Int))
    else if c = chars "goal_diff" then some (-t.goal_diff)
    else if c = chars "goals_for" then some (-(t.goals_for : Int))
    else if c = chars "wins" then some (-(t.wins : Int))
    else none)

/-- Python tuple `<=` on sort keys (lexicographic; a proper prefix is
smaller). -/
def lexLe : List Int → List Int → Bool
  | [], _ => true
  | _ :: _, [] => false
  | a :: as, b :: bs => if a < b then true else if b < a then false else lexLe as bs

/-- The comparator of the ranking sort. -/
def keyLe (tb : List Str) (a b : TeamData) : Bool :=
  lexLe (get_sort_key tb a) (get_sort_key tb b)

/-- The tie test of the rank-assignment loop: equal on every recognized
criterion of the active tie-break list. -/
def isTie (tb : List Str) (a b : TeamData) : Bool :=
  tb.all (fun c =>
    if c = chars "points" then a.points = b.points
    else if c = chars "goal_diff" then a.goal_diff = b.goal_diff
    else if c = chars "goals_for" then a.goals_for = b.goals_for
    else if c = chars "wins" then a.wins = b.wins
    else true)

/-- One output row `(rank, name, points, goal_diff)`. -/
def rankRow (rank : Nat) (t : TeamData) : Nat × Str × Nat × Int :=
  (rank, t.name, t.points, t.goal_diff)

/-- The rank-assignment loop over the sorted tail: the element at 0-based
index `i` keeps `cur` when tied with its predecessor and takes `i + 1`
otherwise; `cur` always carries the rank just assigned. -/
def assignRanksAux (tb : List Str) (prev : TeamData) (cur i : Nat) :
    List TeamData → List (Nat × Str × Nat × Int)
  | [] => []
  | t :: rest =>
    let r := if isTie tb t prev then cur else i + 1
    rankRow r t :: assignRanksAux tb t r (i + 1) rest

/-- The default tie-break order. -/
def defaultTiebreakOrder : List Str :=
  [chars "points", chars "goal_diff", chars "goals_for"]

/-- The sorted working list of the ranker. -/
def rankerSorted (team_stats : List (Str × TeamStats)) (tb : List Str) : List TeamData :=
  stableSort (keyLe tb) (team_stats.map toTeamData)

/-- `rank_teams_advanced`: sort by the cascading key, then assign 1-based
competition ranks. -/
def rank_teams_advanced (team_stats : List (Str × TeamStats)) (tb : List Str) :
    List (Nat × Str × Nat × Int) :=
  if team_stats = [] then []
  else
    match rankerSorted team_stats tb with
    | [] => []
    | t :: rest => rankRow 1 t :: assignRanksAux tb t 1 1 rest

/-!  `generate_analytics_report`. -/

/-- `rank_dict` lookup: the rank stored for a team by the dict-building scan
(a later row for the same name overwrites an earlier one). -/
def rankLookup (table : List (Nat × Str × Nat × Int)) (team : Str) : Option Nat :=
  table.foldl (fun acc r => if r.2.1 = team then some r.1 else acc) none

/-- Python `max(ms, key=f)`: the first element attaining the maximum. -/
def pyMaxBy (f : MatchRecord → Nat) : List MatchRecord → Option MatchRecord
  | [] => none
  | m :: rest => some (rest.foldl (fun best x => if f best < f x then x else best) m)

/-- The winner of a decisive match. -/
def winnerOf (m : MatchRecord) : Str :=
  if m.score2 < m.score1 then m.team1 else m.team2

/-- The loser of a decisive match. -/
def loserOf (m : MatchRecord) : Str :=
  if m.score2 < m.score1 then m.team2 else m.team1

/-- One iteration of the biggest-upset scan: skip draws, skip matches with a
team missing from the rank dict, require the winner ranked strictly worse,
and keep the first match attaining each new strictly larger rank gap. -/
def upsetStep (rd : Str → Option Nat) (st : Option (MatchRecord × Nat × Nat) × Int)
    (m : MatchRecord) : Option (MatchRecord × Nat × Nat) × Int :=
  if m.score1 = m.score2 then st
  else
    match rd m.team1, rd m.team2 with
    | some r1, some r2 =>
      let wr := if m.score2 < m.score1 then r1 else r2
      let lr := if m.score2 < m.score1 then r2 else r1
      if lr < wr then
        let diff : Int := (wr : Int) - (lr : Int)
        if st.2 < diff then (some (m, wr, lr), diff) else st
      else st
    | _, _ => st

/-- The rank gap of a qualifying upset (`none` when the match is drawn, a
team is missing from the rank dict, or the winner is not ranked strictly
worse); formalizes which matches the upset scan considers. -/
def upsetDiff (rd : Str → Option Nat) (m : MatchRecord) : Option Int :=
  if m.score1 = m.score2 then none
  else
    match rd (winnerOf m), rd (loserOf m) with
    | some wr, some lr => if lr < wr then some ((wr : Int) - (lr : Int)) else none
    | _, _ => none

/-- Increment the count of `k` in an insertion-ordered counter dict. -/
def bumpCount (l : List (Nat × Nat)) (k : Nat) : List (Nat × Nat) :=
  match l with
  | [] => [(k, 1)]
  | (k', c) :: rest => if k' = k then (k', c + 1) :: rest else (k', c) :: bumpCount rest k

/-- The analytics report.  The float-valued `most_efficient_team` and
`attendance_by_team` entries are not modelled (no claim concerns them). -/
structure AnalyticsReport where
  tournament_leader : Str
  most_goals_match : Option MatchRecord
  highest_attendance_match : Option MatchRecord
  biggest_upset : Option (MatchRecord × Nat × Nat)
  goal_distribution : List (Nat × Nat)
deriving DecidableEq

/-- `generate_analytics_report` (modelled fields): degenerate placeholder
report when any input is empty, otherwise leader, max scans, the
biggest-upset fold and the goals histogram. -/
def generate_analytics_report (ms : List MatchRecord) (stats : List (Str × TeamStats))
    (table : List (Nat × Str × Nat × Int)) : AnalyticsReport :=
  if ms = [] ∨ stats = [] ∨ table = [] then ⟨[], none, none, none, []⟩
  else
    { tournament_leader :=
        match table with
        | [] => []
        | r :: _ => r.2.1
      most_goals_match := pyMaxBy (fun m => m.score1 + m.score2) ms
      highest_attendance_match := pyMaxBy (fun m => m.attendance) ms
      biggest_upset := (ms.foldl (upsetStep (rankLookup table)) (none, -1)).1
      goal_distribution := ms.foldl (fun acc m => bumpCount acc (m.score1 + m.score2)) [] }

/-!  Spec-side definition used to settle the date-format claim. -/

/-- Modelled from the spec's words: "a real calendar date in YYYY-MM-DD
form" — exactly ten characters, four digits, a dash, two digits, a dash,
two digits, denoting a valid Gregorian calendar date. -/
def specIsYYYYMMDD : Str → Bool
  | [y1, y2, y3, y4, h1, m1, m2, h2, d1, d2] =>
    y1.isDigit && y2.isDigit && y3.isDigit && y4.isDigit && h1 = '-' &&
    m1.isDigit && m2.isDigit && h2 = '-' && d1.isDigit && d2.isDigit &&
    validYMD
      ((y1.toNat - 48) * 1000 + (y2.toNat - 48) * 100 + (y3.toNat - 48) * 10 + (y4.toNat - 48) : Nat)
      ((m1.toNat - 48) * 10 + (m2.toNat - 48) : Nat)
      ((d1.toNat - 48) * 10 + (d2.toNat - 48) : Nat)
  | _ => false

/-!  Decimal rendering of naturals, used to build concrete parser inputs. -/

/-- The ASCII digit character of a value below ten. -/
def digitChar : Nat → Char
  | 0 => '0' | 1 => '1' | 2 => '2' | 3 => '3' | 4 => '4'
  | 5 => '5' | 6 => '6' | 7 => '7' | 8 => '8' | _ => '9'

/-- The canonical decimal rendering of a natural number. -/
def natDigits (n : Nat) : Str :=
  if h : n < 10 then [digitChar n]
  else natDigits (n / 10) ++ [digitChar (n % 10)]
termination_by n
decreasing_by exact Nat.div_lt_self (by omega) (by omega)

/-- The value of a digit string, as accumulated by Python `int()`. -/
def digitsToNat (l : Str) : Nat :=
  l.foldl (fun a c => a * 10 + (c.toNat - 48)) 0

/-!  Concrete example inputs used by the spec's scenarios. -/

/-- Example match: Alpha beats Beta 2-0 on the earlier date. -/
def exM1 : MatchRecord := ⟨chars "2024-01-01", chars "Alpha", 2, chars "Beta", 0, chars "Arena", 100⟩

/-- Example match: Alpha draws Gamma 1-1 on the later date. -/
def exM2 : MatchRecord := ⟨chars "2024-01-02", chars "Alpha", 1, chars "Gamma", 1, chars "Arena", 200⟩

/-- Example stats: 6 points, +3 goal difference, 6 goals for. -/
def exStatsA : TeamStats := ⟨6, 2, 2, 0, 0, 6, 3, 3, 3, 3, 2, 200⟩

/-- Example stats: ties `exStatsA` on all default criteria. -/
def exStatsB : TeamStats := ⟨6, 2, 2, 0, 0, 6, 3, 3, 6, 0, 1, 200⟩

/-- Example stats: 3 points, strictly behind on every criterion. -/
def exStatsC : TeamStats := ⟨3, 2, 1, 0, 1, 2, 5, -3, 3, 0, 0, 200⟩

/-- Example standings input with points `[6, 6, 3]` and a full tie between
the first two teams. -/
def exStats : List (Str × TeamStats) :=
  [(chars "A", exStatsA), (chars "B", exStatsB), (chars "C", exStatsC)]

/-- Example four-team standings table for the upset scenario. -/
def exTable4 : List (Nat × Str × Nat × Int) :=
  [(1, chars "A", 9, 5), (2, chars "B", 6, 2), (3, chars "C", 3, -2), (4, chars "D", 0, -5)]

/-- Example decisive match: the rank-4 team beats the rank-1 team. -/
def exUpsetMatch : MatchRecord := ⟨chars "2024-01-01", chars "D", 2, chars "A", 0, chars "S", 10⟩

/-!  Derived per-entry quantities used to state the aggregation claims. -/

/-- Whether the team won the entry's match. -/
def entryWin (e : Entry) : Bool := e.oppScore < e.teamScore

/-- Whether the entry's match was drawn. -/
def entryDraw (e : Entry) : Bool := e.teamScore = e.oppScore

/-- Whether the team lost the entry's match. -/
def entryLoss (e : Entry) : Bool := e.teamScore < e.oppScore

/-- The points the team earned from the entry (3/1/0). -/
def entryPts (e : Entry) : Nat := if entryWin e then 3 else if entryDraw e then 1 else 0

/-- The points earned at home from the entry. -/
def entryHomePts (e : Entry) : Nat := if e.venue = Venue.home then entryPts e else 0

/-- The points earned away from the entry. -/
def entryAwayPts (e : Entry) : Nat := if e.venue = Venue.home then 0 else entryPts e

/-- The home and away entries a match contributes to the grouping. -/
def entryPair (m : MatchRecord) : List Entry :=
  [⟨m.date, Venue.home, m⟩, ⟨m.date, Venue.away, m⟩]

/-- All entries of the grouped association list, in stored order. -/
def flattenTM (tm : List (Str × List Entry)) : List Entry :=
  (tm.map Prod.snd).flatten

/-- Alpha's statistics as the aggregator computes them on `[exM1, exM2]`. -/
def exStatsFromPipeline : TeamStats := ⟨4, 2, 1, 1, 0, 3, 1, 2, 4, 0, 0, 300⟩

/-- Invariant of the biggest-upset fold over the matches scanned so far:
either nothing qualifies yet (state `(none, -1)`), or the state holds a
qualifying match of maximal rank gap among those scanned. -/
def UpsetInv (rd : Str → Option Nat) (seen : List MatchRecord)
    (st : Option (MatchRecord × Nat × Nat) × Int) : Prop :=
  (st.1 = none ∧ st.2 = -1 ∧ ∀ m ∈ seen, upsetDiff rd m = none) ∨
  (∃ m wr lr, st.1 = some (m, wr, lr) ∧ m ∈ seen ∧ m.score1 ≠ m.score2 ∧
    rd (winnerOf m) = some wr ∧ rd (loserOf m) = some lr ∧ lr < wr ∧
    st.2 = (wr : Int) - (lr : Int) ∧
    ∀ m' ∈ seen, ∀ d', upsetDiff rd m' = some d' → d' ≤ st.2)

/-!  General helper lemmas. -/

theorem insertSorted_perm (le : α → α → Bool) (x : α) (l : List α) :
    (insertSorted le x l).Perm (x :: l) := by
  induction l with
  | nil => simp [insertSorted]
  | cons y ys ih =>
    simp only [insertSorted]
    split
    · exact (ih.cons y).trans (List.Perm.swap x y ys)
    · exact List.Perm.refl _

theorem stableSort_perm (le : α → α → Bool) (l : List α) : (stableSort le l).Perm l := by
  suffices h : ∀ (l acc : List α),
      (l.foldl (fun acc x => insertSorted le x acc) acc).Perm (acc ++ l) by
    simpa using h l []
  intro l
  induction l with
  | nil => simp
  | cons x xs ih =>
    intro acc
    refine (ih (insertSorted le x acc)).trans ?_
    exact ((insertSorted_perm le x acc).append_right xs).trans List.perm_middle.symm

theorem filterCriterion_nil (c : FilterCriterion) : applyCriterion [] c = [] := by
  cases c <;> rfl

theorem foldl_applyCriterion_nil (cs : List FilterCriterion) :
    cs.foldl applyCriterion [] = [] := by
  induction cs with
  | nil => rfl
  | cons c cs ih => simpa [filterCriterion_nil] using ih

/-- C7: for every list of match records and every two criteria sets with
disjoint recognized keys, filtering with the first set and then with the
second yields the same list as filtering once with the combined criteria
set.  (The proof shows this holds for any two criteria lists; the claim's
key-disjointness hypothesis is kept as stated.) -/
theorem C7_filter_composition (ms : List MatchRecord) (c1 c2 : List FilterCriterion)
    (hdisj : ∀ a ∈ c1, ∀ b ∈ c2, sameRecognizedKey a b = false) :
    filter_matches_by_criteria (filter_matches_by_criteria ms c1) c2 =
      filter_matches_by_criteria ms (c1 ++ c2) := by
  by_cases hms : ms = []
  · subst hms
    simp [filter_matches_by_criteria]
  · simp only [filter_matches_by_criteria, if_neg hms, List.foldl_append]
    by_cases hin : c1.foldl applyCriterion ms = []
    · rw [hin, if_pos rfl, foldl_applyCriterion_nil]
    · rw [if_neg hin]

/-- Witness for C7 at a concrete record list and disjoint criteria pair. -/
theorem C7_filter_composition_witness :
    filter_matches_by_criteria
        (filter_matches_by_criteria [exM1, exM2] [FilterCriterion.team (chars "Alpha")])
        [FilterCriterion.min_total_goals 2] =
      filter_matches_by_criteria [exM1, exM2]
        ([FilterCriterion.team (chars "Alpha")] ++ [FilterCriterion.min_total_goals 2]) :=
  C7_filter_composition [exM1, exM2] [FilterCriterion.team (chars "Alpha")]
    [FilterCriterion.min_total_goals 2] (by decide)

/-!  Field characterisation of the per-team accumulation loop. -/

theorem statStep_fields (acc : TeamStats) (e : Entry) :
    (statStep acc e).points = acc.points + entryPts e ∧
    (statStep acc e).wins = acc.wins + (if entryWin e then 1 else 0) ∧
    (statStep acc e).draws = acc.draws + (if entryDraw e then 1 else 0) ∧
    (statStep acc e).losses = acc.losses + (if entryLoss e then 1 else 0) ∧
    (statStep acc e).goals_for = acc.goals_for + e.teamScore ∧
    (statStep acc e).goals_against = acc.goals_against + e.oppScore ∧
    (statStep acc e).home_points = acc.home_points + entryHomePts e ∧
    (statStep acc e).away_points = acc.away_points + entryAwayPts e ∧
    (statStep acc e).total_attendance = acc.total_attendance + e.m.attendance ∧
    (statStep acc e).matches_played = acc.matches_played ∧
    (statStep acc e).win_streak = acc.win_streak ∧
    (statStep acc e).goal_diff = acc.goal_diff := by
  by_cases hw : e.oppScore < e.teamScore
  · have hd : ¬ e.teamScore = e.oppScore := by omega
    have hl : ¬ e.teamScore < e.oppScore := by omega
    by_cases hv : e.venue = Venue.home <;>
      simp [statStep, entryPts, entryWin, entryDraw, entryLoss, entryHomePts, entryAwayPts,
        hw, hd, hl, hv]
  · by_cases hd : e.teamScore = e.oppScore
    · have hl : ¬ e.teamScore < e.oppScore := by omega
      by_cases hv : e.venue = Venue.home <;>
        simp [statStep, entryPts, entryWin, entryDraw, entryLoss, entryHomePts, entryAwayPts,
          hw, hd, hl, hv]
    · have hl : e.teamScore < e.oppScore := by omega
      by_cases hv : e.venue = Venue.home <;>
        simp [statStep, entryPts, entryWin, entryDraw, entryLoss, entryHomePts, entryAwayPts,
          hw, hd, hl, hv]

theorem foldl_statStep_fields (es : List Entry) : ∀ acc : TeamStats,
    (es.foldl statStep acc).points = acc.points + (es.map entryPts).sum ∧
    (es.foldl statStep acc).wins = acc.wins + es.countP entryWin ∧
    (es.foldl statStep acc).draws = acc.draws + es.countP entryDraw ∧
    (es.foldl statStep acc).losses = acc.losses + es.countP entryLoss ∧
    (es.foldl statStep acc).goals_for = acc.goals_for + (es.map Entry.teamScore).sum ∧
    (es.foldl statStep acc).goals_against = acc.goals_against + (es.map Entry.oppScore).sum ∧
    (es.foldl statStep acc).home_points = acc.home_points + (es.map entryHomePts).sum ∧
    (es.foldl statStep acc).away_points = acc.away_points + (es.map entryAwayPts).sum ∧
    (es.foldl statStep acc).total_attendance
      = acc.total_attendance + (es.map (fun e => e.m.attendance)).sum ∧
    (es.foldl statStep acc).matches_played = acc.matches_played := by
  induction es with
  | nil => intro acc; simp
  | cons e es ih =>
    intro acc
    have h := ih (statStep acc e)
    have hs := statStep_fields acc e
    simp only [List.foldl_cons, List.map_cons, List.sum_cons, List.countP_cons]
    obtain ⟨h1, h2, h3, h4, h5, h6, h7, h8, h9, h10⟩ := h
    obtain ⟨s1, s2, s3, s4, s5, s6, s7, s8, s9, s10, _, _⟩ := hs
    refine ⟨?_, ?_, ?_, ?_, ?_, ?_, ?_, ?_, ?_, ?_⟩ <;>
      simp only [h1, h2, h3, h4, h5, h6, h7, h8, h9, h10,
        s1, s2, s3, s4, s5, s6, s7, s8, s9, s10] <;> omega

theorem computeTeamStats_fields (entries : List Entry) :
    (computeTeamStats entries).points
        = ((stableSort entryLe entries).map entryPts).sum ∧
    (computeTeamStats entries).wins = (stableSort entryLe entries).countP entryWin ∧
    (computeTeamStats entries).draws = (stableSort entryLe entries).countP entryDraw ∧
    (computeTeamStats entries).losses = (stableSort entryLe entries).countP entryLoss ∧
    (computeTeamStats entries).goals_for
        = ((stableSort entryLe entries).map Entry.teamScore).sum ∧
    (computeTeamStats entries).goals_against
        = ((stableSort entryLe entries).map Entry.oppScore).sum ∧
    (computeTeamStats entries).home_points
        = ((stableSort entryLe entries).map entryHomePts).sum ∧
    (computeTeamStats entries).away_points
        = ((stableSort entryLe entries).map entryAwayPts).sum ∧
    (computeTeamStats entries).matches_played = (stableSort entryLe entries).length ∧
    (computeTeamStats entries).win_streak
        = winStreakCount (stableSort entryLe entries).reverse := by
  have h := foldl_statStep_fields (stableSort entryLe entries) zeroStats
  obtain ⟨h1, h2, h3, h4, h5, h6, h7, h8, _, _⟩ := h
  simp only [computeTeamStats]
  refine ⟨?_, ?_, ?_, ?_, ?_, ?_, ?_, ?_, ?_, ?_⟩
  · rw [h1]; simp [zeroStats]
  · rw [h2]; simp [zeroStats]
  · rw [h3]; simp [zeroStats]
  · rw [h4]; simp [zeroStats]
  · rw [h5]; simp [zeroStats]
  · rw [h6]; simp [zeroStats]
  · rw [h7]; simp [zeroStats]
  · rw [h8]; simp [zeroStats]
  · trivial
  · trivial

theorem sum_entryPts (l : List Entry) :
    (l.map entryPts).sum = 3 * l.countP entryWin + l.countP entryDraw := by
  induction l with
  | nil => simp
  | cons e es ih =>
    simp only [List.map_cons, List.sum_cons, List.countP_cons, ih, entryPts]
    by_cases hw : entryWin e
    · have hd : entryDraw e = false := by
        simp only [entryWin, decide_eq_true_eq] at hw
        simp only [entryDraw, decide_eq_false_iff_not]
        omega
      simp [hw, hd]; omega
    · by_cases hd : entryDraw e
      · simp [hw, hd]; omega
      · simp [hw, hd]

theorem count_result_partition (l : List Entry) :
    l.countP entryWin + l.countP entryDraw + l.countP entryLoss = l.length := by
  induction l with
  | nil => simp
  | cons e es ih =>
    simp only [List.countP_cons, List.length_cons]
    have : (if entryWin e then 1 else 0) + (if entryDraw e then 1 else 0)
        + (if entryLoss e then 1 else 0) = 1 := by
      simp only [entryWin, entryDraw, entryLoss, decide_eq_true_eq]
      rcases Nat.lt_trichotomy e.oppScore e.teamScore with h | h | h
      · rw [if_pos h, if_neg (by omega), if_neg (by omega)]
      · rw [if_neg (by omega), if_pos (by omega), if_neg (by omega)]
      · rw [if_neg (by omega), if_neg (by omega), if_pos h]
    omega

theorem sum_home_away_pts (l : List Entry) :
    (l.map entryHomePts).sum + (l.map entryAwayPts).sum = (l.map entryPts).sum := by
  induction l with
  | nil => simp
  | cons e es ih =>
    simp only [List.map_cons, List.sum_cons, entryHomePts, entryAwayPts]
    by_cases hv : e.venue = Venue.home <;> simp [hv] <;> omega

/-- Membership in the aggregator's output comes exactly from the grouping. -/
theorem mem_calculate_iff (ms : List MatchRecord) (team : Str) (st : TeamStats) :
    (team, st) ∈ calculate_advanced_team_stats ms ↔
      ∃ es, (team, es) ∈ buildTeamMatches (stableSort matchDateLe ms)
        ∧ st = computeTeamStats es := by
  by_cases hms : ms = []
  · subst hms
    simp [calculate_advanced_team_stats, buildTeamMatches, stableSort]
  · simp only [calculate_advanced_team_stats, if_neg hms, List.mem_map]
    constructor
    · rintro ⟨⟨t, es⟩, hmem, heq⟩
      obtain ⟨h1, h2⟩ := Prod.mk.inj heq
      subst h1
      exact ⟨es, hmem, h2.symm⟩
    · rintro ⟨es, hmem, rfl⟩
      exact ⟨(team, es), hmem, rfl⟩

/-- C3: for every list of match records and every team in the aggregator's
output mapping, `points = 3 * wins + draws` and
`wins + draws + losses = matches_played`. -/
theorem C3_points_consistency (ms : List MatchRecord) (team : Str) (st : TeamStats)
    (h : (team, st) ∈ calculate_advanced_team_stats ms) :
    st.points = 3 * st.wins + st.draws ∧
      st.wins + st.draws + st.losses = st.matches_played := by
  obtain ⟨es, -, rfl⟩ := (mem_calculate_iff ms team st).1 h
  obtain ⟨h1, h2, h3, h4, -, -, -, -, h9, -⟩ := computeTeamStats_fields es
  constructor
  · rw [h1, h2, h3, sum_entryPts]
  · rw [h2, h3, h4, h9, count_result_partition]

/-- Witness for C3 on the two-match Alpha/Beta/Gamma example. -/
theorem C3_points_consistency_witness :
    exStatsFromPipeline.points = 3 * exStatsFromPipeline.wins + exStatsFromPipeline.draws ∧
      exStatsFromPipeline.wins + exStatsFromPipeline.draws + exStatsFromPipeline.losses
        = exStatsFromPipeline.matches_played :=
  C3_points_consistency [exM1, exM2] (chars "Alpha") exStatsFromPipeline (by decide)

/-- C9: for every list of match records and every team in the aggregator's
output, `home_points + away_points = points`. -/
theorem C9_home_away_split (ms : List MatchRecord) (team : Str) (st : TeamStats)
    (h : (team, st) ∈ calculate_advanced_team_stats ms) :
    st.home_points + st.away_points = st.points := by
  obtain ⟨es, -, rfl⟩ := (mem_calculate_iff ms team st).1 h
  obtain ⟨h1, -, -, -, -, -, h7, h8, -, -⟩ := computeTeamStats_fields es
  rw [h1, h7, h8, sum_home_away_pts]

/-- Witness for C9 on the two-match Alpha/Beta/Gamma example. -/
theorem C9_home_away_split_witness :
    exStatsFromPipeline.home_points + exStatsFromPipeline.away_points
      = exStatsFromPipeline.points :=
  C9_home_away_split [exM1, exM2] (chars "Alpha") exStatsFromPipeline (by decide)

/-!  Entry conservation through the grouping. -/

theorem addMatchEntry_flatten (tm : List (Str × List Entry)) (team : Str) (e : Entry) :
    (flattenTM (addMatchEntry tm team e)).Perm (flattenTM tm ++ [e]) := by
  induction tm with
  | nil => simp [addMatchEntry, flattenTM]
  | cons p rest ih =>
    obtain ⟨t, es⟩ := p
    by_cases ht : t = team
    · simp only [addMatchEntry, if_pos ht, flattenTM, List.map_cons, List.flatten_cons]
      have h : (es ++ ([e] ++ (rest.map Prod.snd).flatten)).Perm
          (es ++ ((rest.map Prod.snd).flatten ++ [e])) :=
        List.Perm.append_left es List.perm_append_comm
      simpa [List.append_assoc] using h
    · simp only [addMatchEntry, if_neg ht, flattenTM, List.map_cons, List.flatten_cons]
      have := List.Perm.append_left es ih
      simpa [flattenTM, List.append_assoc] using this

theorem buildTeamMatches_flatten (ms : List MatchRecord) :
    (flattenTM (buildTeamMatches ms)).Perm (ms.flatMap entryPair) := by
  suffices h : ∀ (ms : List MatchRecord) (tm : List (Str × List Entry)),
      (flattenTM (List.foldl
        (fun tm m =>
          addMatchEntry (addMatchEntry tm m.team1 ⟨m.date, Venue.home, m⟩)
            m.team2 ⟨m.date, Venue.away, m⟩) tm ms)).Perm
        (flattenTM tm ++ ms.flatMap entryPair) by
    simpa [flattenTM, buildTeamMatches] using h ms []
  intro ms
  induction ms with
  | nil => intro tm; simp
  | cons m rest ih =>
    intro tm
    refine (ih _).trans ?_
    have h1 := addMatchEntry_flatten (addMatchEntry tm m.team1 ⟨m.date, Venue.home, m⟩)
      m.team2 ⟨m.date, Venue.away, m⟩
    have h2 := (addMatchEntry_flatten tm m.team1 ⟨m.date, Venue.home, m⟩).append_right
      [(⟨m.date, Venue.away, m⟩ : Entry)]
    have h3 := (h1.trans h2).append_right (rest.flatMap entryPair)
    refine h3.trans ?_
    simp only [List.flatMap_cons, entryPair, List.append_assoc]
    exact List.Perm.refl _

theorem sum_over_flattenTM (f : Entry → Nat) (tm : List (Str × List Entry)) :
    (tm.map (fun p => ((p.2).map f).sum)).sum = ((flattenTM tm).map f).sum := by
  induction tm with
  | nil => simp [flattenTM]
  | cons p rest ih => simp [flattenTM, List.map_cons, List.flatten_cons, ih]

theorem flatMap_entryPair_teamScore (ms : List MatchRecord) :
    ((ms.flatMap entryPair).map Entry.teamScore).sum
      = (ms.map (fun m => m.score1 + m.score2)).sum := by
  induction ms with
  | nil => simp
  | cons m rest ih =>
    simp only [List.flatMap_cons, entryPair, List.map_append, List.sum_append,
      List.map_cons, List.sum_cons, ih, Entry.teamScore]
    simp [Venue.home]

theorem flatMap_entryPair_oppScore (ms : List MatchRecord) :
    ((ms.flatMap entryPair).map Entry.oppScore).sum
      = (ms.map (fun m => m.score1 + m.score2)).sum := by
  induction ms with
  | nil => simp
  | cons m rest ih =>
    simp only [List.flatMap_cons, entryPair, List.map_append, List.sum_append,
      List.map_cons, List.sum_cons, ih, Entry.oppScore]
    simp [Venue.home]
    omega

theorem flatMap_entryPair_length (ms : List MatchRecord) :
    (ms.flatMap entryPair).length = 2 * ms.length := by
  induction ms with
  | nil => simp
  | cons m rest ih => simp [List.flatMap_cons, entryPair, ih]; omega

theorem sum_map_stableSort {α : Type} (le : α → α → Bool) (f : α → Nat) (l : List α) :
    ((stableSort le l).map f).sum = (l.map f).sum :=
  ((stableSort_perm le l).map f).sum_eq

theorem length_over_flattenTM (tm : List (Str × List Entry)) :
    (tm.map (fun p => (p.2).length)).sum = (flattenTM tm).length := by
  induction tm with
  | nil => simp [flattenTM]
  | cons p rest ih => simp [flattenTM, ih]

/-- C2: aggregation conservation — total goals for equals total goals
against equals the sum of `score1 + score2` over all matches, and total
matches played equals twice the number of matches. -/
theorem C2_aggregation_conservation (ms : List MatchRecord) :
    ((calculate_advanced_team_stats ms).map (fun p => p.2.goals_for)).sum
        = (ms.map (fun m => m.score1 + m.score2)).sum ∧
    ((calculate_advanced_team_stats ms).map (fun p => p.2.goals_against)).sum
        = (ms.map (fun m => m.score1 + m.score2)).sum ∧
    ((calculate_advanced_team_stats ms).map (fun p => p.2.matches_played)).sum
        = 2 * ms.length := by
  by_cases hms : ms = []
  · subst hms; simp [calculate_advanced_team_stats]
  · simp only [calculate_advanced_team_stats, if_neg hms, List.map_map]
    have hflat := buildTeamMatches_flatten (stableSort matchDateLe ms)
    have hmsperm := stableSort_perm matchDateLe ms
    refine ⟨?_, ?_, ?_⟩
    · have h1 : ∀ p : Str × List Entry,
          ((fun p => p.2.goals_for) ∘ fun p : Str × List Entry =>
            (p.1, computeTeamStats p.2)) p = ((p.2).map Entry.teamScore).sum := by
        intro p
        have := (computeTeamStats_fields p.2).2.2.2.2.1
        simpa [sum_map_stableSort] using this
      rw [funext h1, sum_over_flattenTM Entry.teamScore]
      rw [(hflat.map Entry.teamScore).sum_eq, flatMap_entryPair_teamScore]
      exact (hmsperm.map (fun m => m.score1 + m.score2)).sum_eq
    · have h1 : ∀ p : Str × List Entry,
          ((fun p => p.2.goals_against) ∘ fun p : Str × List Entry =>
            (p.1, computeTeamStats p.2)) p = ((p.2).map Entry.oppScore).sum := by
        intro p
        have := (computeTeamStats_fields p.2).2.2.2.2.2.1
        simpa [sum_map_stableSort] using this
      rw [funext h1, sum_over_flattenTM Entry.oppScore]
      rw [(hflat.map Entry.oppScore).sum_eq, flatMap_entryPair_oppScore]
      exact (hmsperm.map (fun m => m.score1 + m.score2)).sum_eq
    · have h1 : ∀ p : Str × List Entry,
          ((fun p => p.2.matches_played) ∘ fun p : Str × List Entry =>
            (p.1, computeTeamStats p.2)) p = (p.2).length := by
        intro p
        have := (computeTeamStats_fields p.2).2.2.2.2.2.2.2.2.1
        simpa [(stableSort_perm entryLe p.2).length_eq] using this
      rw [funext h1, length_over_flattenTM, hflat.length_eq, flatMap_entryPair_length,
        hmsperm.length_eq]

theorem winStreakCount_eq_takeWhile (l : List Entry) :
    winStreakCount l = (l.takeWhile entryWin).length := by
  induction l with
  | nil => simp [winStreakCount]
  | cons e es ih =>
    simp only [winStreakCount, List.takeWhile_cons, entryWin]
    by_cases h : e.oppScore < e.teamScore
    · simp [h, ih]
    · simp [h]

/-- C4: every team's `win_streak` is the number of consecutive wins at the
end of its date-sorted chronological entry list, i.e. the length of the
maximal winning run of the reversed list; and on the concrete two-match
scenario (Alpha wins, then draws on the later date) Alpha's streak is 0. -/
theorem C4_win_streak :
    (∀ (ms : List MatchRecord) (team : Str) (st : TeamStats),
      (team, st) ∈ calculate_advanced_team_stats ms →
        ∃ es, (team, es) ∈ buildTeamMatches (stableSort matchDateLe ms) ∧
          st.win_streak
            = (((stableSort entryLe es).reverse).takeWhile entryWin).length) ∧
    ((chars "Alpha", exStatsFromPipeline)
        ∈ calculate_advanced_team_stats [exM1, exM2] ∧
      exStatsFromPipeline.win_streak = 0) := by
  constructor
  · intro ms team st h
    obtain ⟨es, hmem, rfl⟩ := (mem_calculate_iff ms team st).1 h
    refine ⟨es, hmem, ?_⟩
    have := (computeTeamStats_fields es).2.2.2.2.2.2.2.2.2
    rw [this, winStreakCount_eq_takeWhile]
  · exact ⟨by decide, rfl⟩

/-- Witness for C4's universally quantified part at the concrete scenario. -/
theorem C4_win_streak_witness :
    ∃ es, (chars "Alpha", es)
        ∈ buildTeamMatches (stableSort matchDateLe [exM1, exM2]) ∧
      exStatsFromPipeline.win_streak
        = (((stableSort entryLe es).reverse).takeWhile entryWin).length :=
  C4_win_streak.1 [exM1, exM2] (chars "Alpha") exStatsFromPipeline (by decide)

/-!  Rank-assignment lemmas. -/

theorem assignRanksAux_length (tb : List Str) :
    ∀ (l : List TeamData) (prev : TeamData) (cur i : Nat),
      (assignRanksAux tb prev cur i l).length = l.length := by
  intro l
  induction l with
  | nil => intro prev cur i; rfl
  | cons t rest ih =>
    intro prev cur i
    simp only [assignRanksAux, List.length_cons, ih]

theorem assignRanksAux_strip (tb : List Str) :
    ∀ (l : List TeamData) (prev : TeamData) (cur i : Nat),
      (assignRanksAux tb prev cur i l).map (fun r => (r.2.1, r.2.2.1, r.2.2.2))
        = l.map (fun t => (t.name, t.points, t.goal_diff)) := by
  intro l
  induction l with
  | nil => intro prev cur i; rfl
  | cons t rest ih =>
    intro prev cur i
    simp only [assignRanksAux, List.map_cons, ih, rankRow]

theorem assignRanksAux_get (tb : List Str) :
    ∀ (l : List TeamData) (prev : TeamData) (cur i j : Nat) (hj : j < l.length),
      ((assignRanksAux tb prev cur i l).get
          ⟨j, by rw [assignRanksAux_length]; omega⟩).1 =
        if j = 0 then (if isTie tb (l.get ⟨j, hj⟩) prev then cur else i + 1)
        else
          (if isTie tb (l.get ⟨j, hj⟩) (l.get ⟨j - 1, by omega⟩) then
            ((assignRanksAux tb prev cur i l).get
              ⟨j - 1, by rw [assignRanksAux_length]; omega⟩).1
          else i + j + 1) := by
  intro l
  induction l with
  | nil => intro prev cur i j hj; exact absurd hj (by simp)
  | cons t rest ih =>
    intro prev cur i j hj
    match j with
    | 0 =>
      simp [assignRanksAux, rankRow]
    | Nat.succ k =>
      have hk : k < rest.length := by simpa using hj
      have hmain := ih t (if isTie tb t prev then cur else i + 1) (i + 1) k hk
      match k with
      | 0 =>
        simpa [assignRanksAux, rankRow, List.get_eq_getElem] using hmain
      | Nat.succ k' =>
        simpa [assignRanksAux, rankRow, List.get_eq_getElem, Nat.add_assoc,
          Nat.add_comm, Nat.add_left_comm] using hmain


theorem rankerSorted_length (stats : List (Str × TeamStats)) (tb : List Str) :
    (rankerSorted stats tb).length = stats.length := by
  simp [rankerSorted, (stableSort_perm (keyLe tb) (stats.map toTeamData)).length_eq]

theorem rank_teams_advanced_cons (stats : List (Str × TeamStats)) (tb : List Str)
    (hne : stats ≠ []) (t : TeamData) (rest : List TeamData)
    (hs : rankerSorted stats tb = t :: rest) :
    rank_teams_advanced stats tb = rankRow 1 t :: assignRanksAux tb t 1 1 rest := by
  simp only [rank_teams_advanced, if_neg hne, hs]

theorem rankerSorted_ne_nil (stats : List (Str × TeamStats)) (tb : List Str)
    (hne : stats ≠ []) : rankerSorted stats tb ≠ [] := by
  intro h
  have := rankerSorted_length stats tb
  rw [h] at this
  exact hne (List.eq_nil_of_length_eq_zero this.symm)

/-- C1: the ranker assigns 1-based competition ranks — the first sorted team
has rank 1; a team tied with its immediate predecessor on all criteria of
the active tie-break list shares that predecessor's rank, and a team not
tied gets rank equal to its own 1-based position `i + 2` (0-based sorted
index `i + 1`); on three teams with points `[6, 6, 3]` under the default
order the ranks are `[1, 1, 3]`. -/
theorem C1_competition_ranks :
    (∀ (stats : List (Str × TeamStats)) (tb : List Str), stats ≠ [] →
      ((rank_teams_advanced stats tb)[0]?).map (fun r => r.1) = some 1) ∧
    (∀ (stats : List (Str × TeamStats)) (tb : List Str) (i : Nat),
      i + 1 < (rankerSorted stats tb).length →
      ∃ rprev rcur sprev scur,
        (rank_teams_advanced stats tb)[i]? = some rprev ∧
        (rank_teams_advanced stats tb)[i + 1]? = some rcur ∧
        (rankerSorted stats tb)[i]? = some sprev ∧
        (rankerSorted stats tb)[i + 1]? = some scur ∧
        rcur.1 = if isTie tb scur sprev then rprev.1 else i + 2) ∧
    ((rank_teams_advanced exStats defaultTiebreakOrder).map (fun r => r.1)
      = [1, 1, 3]) := by
  refine ⟨?_, ?_, by decide⟩
  · intro stats tb hne
    obtain ⟨t, rest, hs⟩ : ∃ t rest, rankerSorted stats tb = t :: rest := by
      match h : rankerSorted stats tb with
      | [] => exact absurd h (rankerSorted_ne_nil stats tb hne)
      | t :: rest => exact ⟨t, rest, rfl⟩
    rw [rank_teams_advanced_cons stats tb hne t rest hs]
    simp [rankRow]
  · intro stats tb i hlen
    have hne : stats ≠ [] := by
      intro h
      subst h
      have h2 : (rankerSorted ([] : List (Str × TeamStats)) tb).length = 0 := by
        simpa using rankerSorted_length ([] : List (Str × TeamStats)) tb
      omega
    obtain ⟨t, rest, hs⟩ : ∃ t rest, rankerSorted stats tb = t :: rest := by
      match h : rankerSorted stats tb with
      | [] => exact absurd h (rankerSorted_ne_nil stats tb hne)
      | t :: rest => exact ⟨t, rest, rfl⟩
    rw [hs] at hlen
    rw [rank_teams_advanced_cons stats tb hne t rest hs, hs]
    have hi : i < rest.length := by
      simpa using hlen
    have hmain := assignRanksAux_get tb rest t 1 1 i hi
    have hinner : i < (assignRanksAux tb t 1 1 rest).length := by
      rw [assignRanksAux_length]; omega
    match i, hi, hinner, hmain with
    | 0, hi, hinner, hmain =>
      refine ⟨rankRow 1 t, (assignRanksAux tb t 1 1 rest).get ⟨0, hinner⟩,
        t, rest.get ⟨0, hi⟩, ?_, ?_, ?_, ?_, ?_⟩
      · simp
      · simp [List.getElem?_eq_getElem, hinner, List.get_eq_getElem]
      · simp
      · simp [List.getElem?_eq_getElem, hi, List.get_eq_getElem]
      · simpa [rankRow] using hmain
    | Nat.succ k, hi, hinner, hmain =>
      have hk : k < rest.length := by omega
      have hkinner : k < (assignRanksAux tb t 1 1 rest).length := by
        rw [assignRanksAux_length]; omega
      refine ⟨(assignRanksAux tb t 1 1 rest).get ⟨k, hkinner⟩,
        (assignRanksAux tb t 1 1 rest).get ⟨k + 1, hinner⟩,
        rest.get ⟨k, hk⟩, rest.get ⟨k + 1, hi⟩, ?_, ?_, ?_, ?_, ?_⟩
      · simp [List.getElem?_eq_getElem, hkinner, List.get_eq_getElem]
      · simp [List.getElem?_eq_getElem, hinner, List.get_eq_getElem]
      · simp [List.getElem?_eq_getElem, hk, List.get_eq_getElem]
      · simp [List.getElem?_eq_getElem, hi, List.get_eq_getElem]
      · simpa [Nat.add_assoc, Nat.add_comm, Nat.add_left_comm] using hmain

/-- Witness for C1's adjacent-rank clause on the `[6, 6, 3]` example at the
non-tied third position. -/
theorem C1_competition_ranks_witness :
    ∃ rprev rcur sprev scur,
      (rank_teams_advanced exStats defaultTiebreakOrder)[1]? = some rprev ∧
      (rank_teams_advanced exStats defaultTiebreakOrder)[2]? = some rcur ∧
      (rankerSorted exStats defaultTiebreakOrder)[1]? = some sprev ∧
      (rankerSorted exStats defaultTiebreakOrder)[2]? = some scur ∧
      rcur.1 = if isTie defaultTiebreakOrder scur sprev then rprev.1 else 3 :=
  C1_competition_ranks.2.1 exStats defaultTiebreakOrder 1 (by decide)

theorem rank_strip_eq (stats : List (Str × TeamStats)) (tb : List Str) :
    (rank_teams_advanced stats tb).map (fun r => (r.2.1, r.2.2.1, r.2.2.2))
      = (rankerSorted stats tb).map (fun t => (t.name, t.points, t.goal_diff)) := by
  by_cases hne : stats = []
  · subst hne
    simp [rank_teams_advanced, rankerSorted, stableSort]
  · match hs : rankerSorted stats tb with
    | [] => exact absurd hs (rankerSorted_ne_nil stats tb hne)
    | t :: rest =>
      rw [rank_teams_advanced_cons stats tb hne t rest hs]
      simp [rankRow, assignRanksAux_strip]

theorem rank_strip_perm (stats : List (Str × TeamStats)) (tb : List Str) :
    ((rank_teams_advanced stats tb).map (fun r => (r.2.1, r.2.2.1, r.2.2.2))).Perm
      (stats.map (fun p => (p.1, p.2.points, p.2.goal_diff))) := by
  rw [rank_strip_eq]
  have h := (stableSort_perm (keyLe tb) (stats.map toTeamData)).map
    (fun t : TeamData => (t.name, t.points, t.goal_diff))
  refine h.trans ?_
  rw [List.map_map]
  exact List.Perm.refl _

/-- C10: for every stats mapping with distinct team names and every
tie-break order, the standings contain exactly one row per team — same
length, each name exactly once — and every row carries that team's `points`
and `goal_diff` unchanged from the input mapping. -/
theorem C10_standings_completeness (stats : List (Str × TeamStats)) (tb : List Str)
    (hnd : (stats.map Prod.fst).Nodup) :
    (rank_teams_advanced stats tb).length = stats.length ∧
    ((rank_teams_advanced stats tb).map (fun r => r.2.1)).Perm (stats.map Prod.fst) ∧
    ((rank_teams_advanced stats tb).map (fun r => r.2.1)).Nodup ∧
    ∀ r ∈ rank_teams_advanced stats tb,
      ∃ st, (r.2.1, st) ∈ stats ∧ r.2.2.1 = st.points ∧ r.2.2.2 = st.goal_diff := by
  have hperm := rank_strip_perm stats tb
  have hnames : ((rank_teams_advanced stats tb).map (fun r => r.2.1)).Perm
      (stats.map Prod.fst) := by
    have h := hperm.map (fun x : Str × Nat × Int => x.1)
    simpa [List.map_map, Function.comp] using h
  refine ⟨?_, hnames, hnames.symm.nodup hnd, ?_⟩
  · have := hperm.length_eq
    simpa using this
  · intro r hr
    have hmem : (r.2.1, r.2.2.1, r.2.2.2)
        ∈ stats.map (fun p => (p.1, p.2.points, p.2.goal_diff)) := by
      refine hperm.mem_iff.1 ?_
      exact List.mem_map_of_mem _ hr
    obtain ⟨p, hp, heq⟩ := List.mem_map.1 hmem
    obtain ⟨h1, h23⟩ := Prod.mk.inj heq.symm
    obtain ⟨h2, h3⟩ := Prod.mk.inj h23
    exact ⟨p.2, by rw [h1]; exact (Prod.mk.eta ▸ hp), h2, h3⟩

/-- Witness for C10 on the three-team example standings. -/
theorem C10_standings_completeness_witness :
    (rank_teams_advanced exStats defaultTiebreakOrder).length = exStats.length :=
  (C10_standings_completeness exStats defaultTiebreakOrder (by decide)).1

/-!  Biggest-upset fold invariant. -/

theorem UpsetInv_extend_none (rd : Str → Option Nat) (seen : List MatchRecord)
    (st : Option (MatchRecord × Nat × Nat) × Int) (m : MatchRecord)
    (hm : upsetDiff rd m = none) (h : UpsetInv rd seen st) :
    UpsetInv rd (seen ++ [m]) st := by
  rcases h with ⟨h1, h2, h3⟩ | ⟨m', wr, lr, hsome, hmem, hd, hw, hl, hlt, hval, hmax⟩
  · refine Or.inl ⟨h1, h2, ?_⟩
    intro x hx
    rcases List.mem_append.1 hx with hx | hx
    · exact h3 x hx
    · rw [List.mem_singleton.1 hx]; exact hm
  · refine Or.inr ⟨m', wr, lr, hsome, List.mem_append_left _ hmem, hd, hw, hl, hlt, hval, ?_⟩
    intro x hx d' hd'
    rcases List.mem_append.1 hx with hx | hx
    · exact hmax x hx d' hd'
    · rw [List.mem_singleton.1 hx, hm] at hd'
      cases hd'

theorem upsetStep_inv (rd : Str → Option Nat) (seen : List MatchRecord)
    (st : Option (MatchRecord × Nat × Nat) × Int) (m : MatchRecord)
    (h : UpsetInv rd seen st) : UpsetInv rd (seen ++ [m]) (upsetStep rd st m) := by
  by_cases hdr : m.score1 = m.score2
  · rw [show upsetStep rd st m = st by simp [upsetStep, hdr]]
    exact UpsetInv_extend_none rd seen st m (by simp [upsetDiff, hdr]) h
  · by_cases ho : m.score2 < m.score1
    · have hwin : winnerOf m = m.team1 := by simp [winnerOf, ho]
      have hlos : loserOf m = m.team2 := by simp [loserOf, ho]
      rcases ht1 : rd m.team1 with _ | r1
      · rw [show upsetStep rd st m = st by simp [upsetStep, hdr, ht1]]
        exact UpsetInv_extend_none rd seen st m (by simp [upsetDiff, hdr, hwin, ht1]) h
      · rcases ht2 : rd m.team2 with _ | r2
        · rw [show upsetStep rd st m = st by simp [upsetStep, hdr, ht1, ht2]]
          exact UpsetInv_extend_none rd seen st m
            (by simp [upsetDiff, hdr, hwin, hlos, ht1, ht2]) h
        · by_cases hup : r2 < r1
          · have hdm : upsetDiff rd m = some ((r1 : Int) - (r2 : Int)) := by
              simp [upsetDiff, hdr, hwin, hlos, ht1, ht2, hup]
            by_cases hgt : st.2 < (r1 : Int) - (r2 : Int)
            · rw [show upsetStep rd st m = (some (m, r1, r2), (r1 : Int) - (r2 : Int)) by
                simp [upsetStep, hdr, ht1, ht2, ho, hup, hgt]]
              refine Or.inr ⟨m, r1, r2, rfl, List.mem_append_right _ (by simp), hdr,
                by rw [hwin, ht1], by rw [hlos, ht2], hup, rfl, ?_⟩
              intro x hx d' hd'
              rcases List.mem_append.1 hx with hx | hx
              · rcases h with ⟨-, h2, h3⟩ | ⟨m', wr, lr, -, -, -, -, -, -, hval, hmax⟩
                · rw [h3 x hx] at hd'; cases hd'
                · have := hmax x hx d' hd'
                  rw [hval] at this hgt
                  omega
              · rw [List.mem_singleton.1 hx, hdm] at hd'
                have hd2 : (r1 : Int) - (r2 : Int) = d' := Option.some.inj hd'
                omega
            · rw [show upsetStep rd st m = st by
                simp [upsetStep, hdr, ht1, ht2, ho, hup, hgt]]
              rcases h with ⟨-, h2, -⟩ | ⟨m', wr, lr, hsome, hmem, hd, hw, hl, hlt, hval, hmax⟩
              · exfalso
                rw [h2] at hgt
                omega
              · refine Or.inr ⟨m', wr, lr, hsome, List.mem_append_left _ hmem, hd, hw, hl,
                  hlt, hval, ?_⟩
                intro x hx d' hd'
                rcases List.mem_append.1 hx with hx | hx
                · exact hmax x hx d' hd'
                · rw [List.mem_singleton.1 hx, hdm] at hd'
                  have : d' = (r1 : Int) - (r2 : Int) := by
                    exact (Option.some.inj hd').symm
                  omega
          · rw [show upsetStep rd st m = st by simp [upsetStep, hdr, ht1, ht2, ho, hup]]
            exact UpsetInv_extend_none rd seen st m
              (by simp [upsetDiff, hdr, hwin, hlos, ht1, ht2, hup]) h
    · have ho2 : m.score1 < m.score2 := by omega
      have hwin : winnerOf m = m.team2 := by simp [winnerOf, ho]
      have hlos : loserOf m = m.team1 := by simp [loserOf, ho]
      rcases ht1 : rd m.team1 with _ | r1
      · rw [show upsetStep rd st m = st by simp [upsetStep, hdr, ht1]]
        exact UpsetInv_extend_none rd seen st m
          (by simp [upsetDiff, hdr, hwin, hlos, ht1]) h
      · rcases ht2 : rd m.team2 with _ | r2
        · rw [show upsetStep rd st m = st by simp [upsetStep, hdr, ht1, ht2]]
          exact UpsetInv_extend_none rd seen st m
            (by simp [upsetDiff, hdr, hwin, hlos, ht1, ht2]) h
        · by_cases hup : r1 < r2
          · have hdm : upsetDiff rd m = some ((r2 : Int) - (r1 : Int)) := by
              simp [upsetDiff, hdr, hwin, hlos, ht1, ht2, hup]
            by_cases hgt : st.2 < (r2 : Int) - (r1 : Int)
            · rw [show upsetStep rd st m = (some (m, r2, r1), (r2 : Int) - (r1 : Int)) by
                simp [upsetStep, hdr, ht1, ht2, ho, hup, hgt]]
              refine Or.inr ⟨m, r2, r1, rfl, List.mem_append_right _ (by simp), hdr,
                by rw [hwin, ht2], by rw [hlos, ht1], hup, rfl, ?_⟩
              intro x hx d' hd'
              rcases List.mem_append.1 hx with hx | hx
              · rcases h with ⟨-, h2, h3⟩ | ⟨m', wr, lr, -, -, -, -, -, -, hval, hmax⟩
                · rw [h3 x hx] at hd'; cases hd'
                · have := hmax x hx d' hd'
                  rw [hval] at this hgt
                  omega
              · rw [List.mem_singleton.1 hx, hdm] at hd'
                have : d' = (r2 : Int) - (r1 : Int) := (Option.some.inj hd').symm
                omega
            · rw [show upsetStep rd st m = st by
                simp [upsetStep, hdr, ht1, ht2, ho, hup, hgt]]
              rcases h with ⟨-, h2, -⟩ | ⟨m', wr, lr, hsome, hmem, hd, hw, hl, hlt, hval, hmax⟩
              · exfalso
                rw [h2] at hgt
                omega
              · refine Or.inr ⟨m', wr, lr, hsome, List.mem_append_left _ hmem, hd, hw, hl,
                  hlt, hval, ?_⟩
                intro x hx d' hd'
                rcases List.mem_append.1 hx with hx | hx
                · exact hmax x hx d' hd'
                · rw [List.mem_singleton.1 hx, hdm] at hd'
                  have : d' = (r2 : Int) - (r1 : Int) := (Option.some.inj hd').symm
                  omega
          · rw [show upsetStep rd st m = st by simp [upsetStep, hdr, ht1, ht2, ho, hup]]
            exact UpsetInv_extend_none rd seen st m
              (by simp [upsetDiff, hdr, hwin, hlos, ht1, ht2, hup]) h

theorem upsetFold_inv (rd : Str → Option Nat) :
    ∀ (ms seen : List MatchRecord) (st : Option (MatchRecord × Nat × Nat) × Int),
      UpsetInv rd seen st →
      UpsetInv rd (seen ++ ms) (List.foldl (upsetStep rd) st ms) := by
  intro ms
  induction ms with
  | nil => intro seen st h; simpa using h
  | cons m rest ih =>
    intro seen st h
    have h1 := upsetStep_inv rd seen st m h
    have h2 := ih (seen ++ [m]) (upsetStep rd st m) h1
    simpa [List.append_assoc] using h2

theorem report_biggest_upset_eq (ms : List MatchRecord) (stats : List (Str × TeamStats))
    (table : List (Nat × Str × Nat × Int)) (h1 : ms ≠ []) (h2 : stats ≠ [])
    (h3 : table ≠ []) :
    (generate_analytics_report ms stats table).biggest_upset
      = (ms.foldl (upsetStep (rankLookup table)) (none, -1)).1 := by
  simp [generate_analytics_report, h1, h2, h3]

/-- C8: the biggest-upset report entry considers exactly the decisive
matches whose teams both appear in the rank map with the winner ranked
strictly worse; it is absent iff no match qualifies, and otherwise reports a
qualifying match together with its winner and loser ranks, whose rank gap is
maximal among all qualifying matches. -/
theorem C8_biggest_upset (ms : List MatchRecord) (stats : List (Str × TeamStats))
    (table : List (Nat × Str × Nat × Int)) (h1 : ms ≠ []) (h2 : stats ≠ [])
    (h3 : table ≠ []) :
    ((generate_analytics_report ms stats table).biggest_upset = none ↔
      ∀ m ∈ ms, upsetDiff (rankLookup table) m = none) ∧
    (∀ m wr lr,
      (generate_analytics_report ms stats table).biggest_upset = some (m, wr, lr) →
        m ∈ ms ∧ m.score1 ≠ m.score2 ∧
        rankLookup table (winnerOf m) = some wr ∧
        rankLookup table (loserOf m) = some lr ∧ lr < wr ∧
        ∀ m' ∈ ms, ∀ d', upsetDiff (rankLookup table) m' = some d' →
          d' ≤ (wr : Int) - (lr : Int)) := by
  have hbase : UpsetInv (rankLookup table) [] (none, -1) := Or.inl ⟨rfl, rfl, by simp⟩
  have hinv := upsetFold_inv (rankLookup table) ms [] (none, -1) hbase
  rw [List.nil_append] at hinv
  rw [report_biggest_upset_eq ms stats table h1 h2 h3]
  constructor
  · constructor
    · intro hnone
      rcases hinv with ⟨-, -, hall⟩ | ⟨m', wr, lr, hsome, -, -, -, -, -, -, -⟩
      · exact hall
      · rw [hnone] at hsome; cases hsome
    · intro hall
      rcases hinv with ⟨hn, -, -⟩ | ⟨m', wr, lr, hsome, hmem, hd, hw, hl, hlt, -, -⟩
      · exact hn
      · exfalso
        have : upsetDiff (rankLookup table) m' = some ((wr : Int) - (lr : Int)) := by
          simp [upsetDiff, hd, hw, hl, hlt]
        rw [hall m' hmem] at this
        cases this
  · intro m wr lr hsome
    rcases hinv with ⟨hn, -, -⟩ | ⟨m', wr', lr', hsome', hmem, hd, hw, hl, hlt, hval, hmax⟩
    · rw [hn] at hsome; cases hsome
    · rw [hsome'] at hsome
      obtain ⟨he1, he2⟩ := Prod.mk.inj (Option.some.inj hsome)
      obtain ⟨he2, he3⟩ := Prod.mk.inj he2
      subst he1; subst he2; subst he3
      refine ⟨hmem, hd, hw, hl, hlt, ?_⟩
      intro x hx d' hd'
      have := hmax x hx d' hd'
      rw [hval] at this
      exact this

/-- Witness for C8 on the four-team table where the rank-4 team beats the
rank-1 team: the report holds that match with winner rank 4 and loser rank
1. -/
theorem C8_biggest_upset_witness :
    exUpsetMatch ∈ [exUpsetMatch] ∧ exUpsetMatch.score1 ≠ exUpsetMatch.score2 ∧
      rankLookup exTable4 (winnerOf exUpsetMatch) = some 4 ∧
      rankLookup exTable4 (loserOf exUpsetMatch) = some 1 ∧ 1 < 4 ∧
      ∀ m' ∈ [exUpsetMatch], ∀ d', upsetDiff (rankLookup exTable4) m' = some d' →
        d' ≤ (4 : Int) - (1 : Int) :=
  (C8_biggest_upset [exUpsetMatch] exStats exTable4 (by decide) (by decide)
    (by decide)).2 exUpsetMatch 4 1 (by decide)

/-!  Character and stripping lemmas for the parser proofs. -/

theorem ne_of_isDigit (c k : Char) (h : c.isDigit = true) (hk : k.isDigit = false) :
    c ≠ k := by
  intro he
  rw [he] at h
  rw [h] at hk
  cases hk

theorem isPySpace_of_isDigit (c : Char) (h : c.isDigit = true) :
    isPySpace c = false := by
  cases hs : isPySpace c
  · rfl
  · exfalso
    simp only [isPySpace, Bool.or_eq_true, decide_eq_true_eq] at hs
    rcases hs with ((((h1 | h1) | h1) | h1) | h1) | h1 <;>
      (subst h1; exact absurd h (by decide))

theorem dropWhile_length_le (p : Char → Bool) (l : Str) :
    (l.dropWhile p).length ≤ l.length := by
  induction l with
  | nil => simp
  | cons c t ih =>
    by_cases hc : p c
    · simp only [List.dropWhile, hc]
      exact Nat.le_trans ih (by simp)
    · simp [List.dropWhile, hc]

theorem dropWhile_eq_self_of_head (p : Char → Bool) (l : Str)
    (h : ∀ x, l.head? = some x → p x = false) : l.dropWhile p = l := by
  match l with
  | [] => rfl
  | c :: t => simp [List.dropWhile, h c rfl]

theorem dropWhile_append_all (p : Char → Bool) (w l : Str)
    (hw : ∀ c ∈ w, p c = true) : (w ++ l).dropWhile p = l.dropWhile p := by
  induction w with
  | nil => rfl
  | cons c t ih =>
    have hc := hw c (by simp)
    simp only [List.cons_append, List.dropWhile, hc]
    exact ih (fun c hmem => hw c (by simp [hmem]))

theorem pyStrip_eq_self_of (l : Str)
    (h1 : ∀ x, l.head? = some x → isPySpace x = false)
    (h2 : ∀ x, l.getLast? = some x → isPySpace x = false) : pyStrip l = l := by
  unfold pyStrip
  rw [dropWhile_eq_self_of_head _ _ h1]
  rw [dropWhile_eq_self_of_head _ _ (by simpa [List.head?_reverse] using h2)]
  exact l.reverse_reverse

theorem pyStrip_length_le_inner (l : Str) :
    (pyStrip l).length ≤ (l.dropWhile isPySpace).length := by
  unfold pyStrip
  simp only [List.length_reverse]
  have := dropWhile_length_le isPySpace (l.dropWhile isPySpace).reverse
  simpa using this

theorem head_last_not_space_of_strip (l : Str) (h : pyStrip l = l) :
    (∀ x, l.head? = some x → isPySpace x = false) ∧
    (∀ x, l.getLast? = some x → isPySpace x = false) := by
  constructor
  · intro x hx
    obtain ⟨ys, rfl⟩ := List.head?_eq_some_iff.1 hx
    by_contra hbad
    have px : isPySpace x = true := by
      cases hp : isPySpace x
      · exact absurd hp hbad
      · rfl
    have hd : (x :: ys).dropWhile isPySpace = ys.dropWhile isPySpace := by
      simp [List.dropWhile, px]
    have hlen : (pyStrip (x :: ys)).length ≤ ys.length := by
      have h1 := pyStrip_length_le_inner (x :: ys)
      rw [hd] at h1
      exact Nat.le_trans h1 (dropWhile_length_le isPySpace ys)
    rw [h] at hlen
    simp at hlen
  · intro x hx
    by_contra hbad
    have px : isPySpace x = true := by
      cases hp : isPySpace x
      · exact absurd hp hbad
      · rfl
    set d := l.dropWhile isPySpace with hd
    by_cases hdn : d = []
    · have hempty : pyStrip l = [] := by
        unfold pyStrip
        rw [← hd, hdn]
        rfl
      rw [h] at hempty
      rw [hempty] at hx
      cases hx
    · have hsuf : d.getLast? = l.getLast? := by
        obtain ⟨t, ht⟩ := List.dropWhile_suffix (l := l) isPySpace
        rw [← hd] at ht
        rw [← ht, List.getLast?_append]
        match hdl : d.getLast? with
        | some z => rfl
        | none => exact absurd (List.getLast?_eq_none_iff.1 hdl) hdn
      rw [hx] at hsuf
      obtain ⟨zs, hzs⟩ := List.getLast?_eq_some_iff.1 hsuf
      have hrev : d.reverse = x :: zs.reverse := by rw [hzs]; simp
      have hlen1 : (pyStrip l).length = ((d.reverse).dropWhile isPySpace).length := by
        unfold pyStrip
        rw [← hd]
        simp
      have hlen2 : ((d.reverse).dropWhile isPySpace).length ≤ zs.length := by
        rw [hrev]
        have : (x :: zs.reverse).dropWhile isPySpace = zs.reverse.dropWhile isPySpace := by
          simp [List.dropWhile, px]
        rw [this]
        simpa using dropWhile_length_le isPySpace zs.reverse
      have hdlen : d.length = zs.length + 1 := by rw [hzs]; simp
      have hll : d.length ≤ l.length := by rw [hd]; exact dropWhile_length_le _ _
      have := hlen1 ▸ hlen2
      rw [h] at this
      omega

/-!  Splitting lemmas. -/

theorem splitFirst_cons (sep : Str) (c : Char) (rest : Str) :
    splitFirst sep (c :: rest) =
      if sep.isPrefixOf (c :: rest) then some ([], (c :: rest).drop sep.length)
      else
        match splitFirst sep rest with
        | none => none
        | some (a, b) => some (c :: a, b) := rfl

theorem splitFirst_eq_some (sep : Str) :
    ∀ (l a b : Str), splitFirst sep l = some (a, b) → l = a ++ sep ++ b := by
  intro l
  induction l with
  | nil => intro a b h; cases h
  | cons c rest ih =>
    intro a b h
    simp only [splitFirst] at h
    by_cases hp : sep.isPrefixOf (c :: rest)
    · rw [if_pos hp] at h
      obtain ⟨ha, hb⟩ := Prod.mk.inj (Option.some.inj h)
      obtain ⟨t, ht⟩ := List.isPrefixOf_iff_prefix.1 hp
      subst ha
      rw [← hb, ← ht, List.nil_append, List.drop_left]
    · rw [if_neg hp] at h
      match hr : splitFirst sep rest with
      | none => rw [hr] at h; cases h
      | some (a', b') =>
        rw [hr] at h
        obtain ⟨ha, hb⟩ := Prod.mk.inj (Option.some.inj h)
        have := ih a' b' hr
        subst hb
        rw [← ha, this]
        simp

theorem splitFirst_none_of_not_mem (sep l : Str) (k : Char) (hk : k ∈ sep)
    (hl : k ∉ l) : splitFirst sep l = none := by
  match h : splitFirst sep l with
  | none => rfl
  | some (a, b) =>
    exfalso
    have := splitFirst_eq_some sep l a b h
    apply hl
    rw [this]
    simp [hk]

theorem splitFirst_sepBar_append (a b : Str) (ha : '|' ∉ a) :
    splitFirst sepBar (a ++ sepBar ++ b) = some (a, b) := by
  induction a with
  | nil =>
    have hp : sepBar.isPrefixOf (' ' :: '|' :: ' ' :: b) = true :=
      List.isPrefixOf_iff_prefix.2 (List.prefix_append sepBar b)
    show splitFirst sepBar (' ' :: '|' :: ' ' :: b) = some ([], b)
    rw [splitFirst_cons, if_pos hp]
    rfl
  | cons c t ih =>
    have hct : '|' ∉ t := fun hm => ha (by simp [hm])
    have hcne : c ≠ '|' := fun he => ha (by simp [he])
    have hstep : (c :: t) ++ sepBar ++ b = c :: (t ++ sepBar ++ b) := by simp
    rw [hstep]
    simp only [splitFirst]
    have hnp : sepBar.isPrefixOf (c :: (t ++ sepBar ++ b)) = false := by
      cases hp : sepBar.isPrefixOf (c :: (t ++ sepBar ++ b))
      · rfl
      · exfalso
        obtain ⟨u, hu⟩ := List.isPrefixOf_iff_prefix.1 hp
        have : ' ' :: '|' :: ' ' :: u = c :: (t ++ sepBar ++ b) := hu
        obtain ⟨he1, he2⟩ := List.cons.inj this
        match t, hct with
        | [], _ =>
          have hsp2 : '|' = ' ' := (List.cons.inj he2).1
          exact absurd hsp2 (by decide)
        | d :: t', hct =>
          have hd : d = '|' := (List.cons.inj he2).1.symm
          exact hct (by simp [hd])
    rw [hnp]
    simp only [Bool.false_eq_true, if_false]
    rw [ih hct]

theorem splitFirst_dash_append (a b : Str) (ha : '-' ∉ a) :
    splitFirst ['-'] (a ++ '-' :: b) = some (a, b) := by
  induction a with
  | nil =>
    simp only [List.nil_append, splitFirst]
    have hp : List.isPrefixOf ['-'] ('-' :: b) = true :=
      List.isPrefixOf_iff_prefix.2 ⟨b, rfl⟩
    rw [if_pos hp]
    rfl
  | cons c t ih =>
    have hct : '-' ∉ t := fun hm => ha (by simp [hm])
    have hcne : c ≠ '-' := fun he => ha (by simp [he])
    have hstep : (c :: t) ++ '-' :: b = c :: (t ++ '-' :: b) := by simp
    rw [hstep]
    simp only [splitFirst]
    have hnp : List.isPrefixOf ['-'] (c :: (t ++ '-' :: b)) = false := by
      cases hp : List.isPrefixOf ['-'] (c :: (t ++ '-' :: b))
      · rfl
      · exfalso
        obtain ⟨u, hu⟩ := List.isPrefixOf_iff_prefix.1 hp
        exact hcne ((List.cons.inj hu).1.symm)
    rw [hnp]
    simp only [Bool.false_eq_true, if_false]
    rw [ih hct]

theorem splitSepFuel_irrel (sep : Str) (hsep : sep ≠ []) :
    ∀ (fuel fuel' : Nat) (l : Str), l.length ≤ fuel → l.length ≤ fuel' →
      splitSepFuel sep fuel l = splitSepFuel sep fuel' l := by
  intro fuel
  induction fuel with
  | zero =>
    intro fuel' l hl hl'
    have : l = [] := by
      cases l
      · rfl
      · simp at hl
    subst this
    cases fuel'
    · rfl
    · simp only [splitSepFuel]
      have : splitFirst sep [] = none := by cases sep <;> simp_all [splitFirst]
      rw [this]
  | succ fuel ih =>
    intro fuel' l hl hl'
    cases fuel' with
    | zero =>
      have : l = [] := by
        cases l
        · rfl
        · simp at hl'
      subst this
      simp only [splitSepFuel]
      have : splitFirst sep [] = none := by cases sep <;> simp_all [splitFirst]
      rw [this]
    | succ fuel' =>
      simp only [splitSepFuel]
      match hsp : splitFirst sep l with
      | none => rfl
      | some (a, b) =>
        have hb : b.length < l.length := by
          have := splitFirst_eq_some sep l a b hsp
          rw [this]
          simp
          cases sep
          · exact absurd rfl hsep
          · simp
            omega
        exact congrArg (fun x => a :: x) (ih fuel' b (by omega) (by omega))

theorem splitSep_cons_of_splitFirst (sep l a b : Str) (hsep : sep ≠ [])
    (h : splitFirst sep l = some (a, b)) :
    splitSep sep l = a :: splitSep sep b := by
  have hlb : b.length < l.length := by
    have := splitFirst_eq_some sep l a b h
    rw [this]
    simp
    cases sep
    · exact absurd rfl hsep
    · simp
      omega
  unfold splitSep
  match hl : l.length, hlb with
  | Nat.succ n, hlb =>
    simp only [splitSepFuel, h]
    rw [splitSepFuel_irrel sep hsep n b.length b (by omega) (by omega)]

theorem splitSep_single_of_none (sep l : Str) (h : splitFirst sep l = none) :
    splitSep sep l = [l] := by
  unfold splitSep
  match l.length with
  | 0 => rfl
  | Nat.succ n => simp only [splitSepFuel, h]

theorem sepBar_ne_nil : sepBar ≠ [] := by simp [sepBar]

theorem splitSep_four (d m s t : Str) (hd : '|' ∉ d) (hm : '|' ∉ m) (hs : '|' ∉ s)
    (ht : '|' ∉ t) :
    splitSep sepBar (d ++ sepBar ++ (m ++ sepBar ++ (s ++ sepBar ++ t)))
      = [d, m, s, t] := by
  rw [splitSep_cons_of_splitFirst sepBar _ d _ sepBar_ne_nil
    (splitFirst_sepBar_append d _ hd)]
  rw [splitSep_cons_of_splitFirst sepBar _ m _ sepBar_ne_nil
    (splitFirst_sepBar_append m _ hm)]
  rw [splitSep_cons_of_splitFirst sepBar _ s _ sepBar_ne_nil
    (splitFirst_sepBar_append s _ hs)]
  rw [splitSep_single_of_none sepBar t
    (splitFirst_none_of_not_mem sepBar t '|' (by simp [sepBar]) ht)]

/-- C5 counterexample: the line with date segment `"2024-2-3"` — a real
calendar date but not in (zero-padded) YYYY-MM-DD form — parses
successfully, because Python's `int()` accepts un-padded components; the
claim says any such line must fail with a FormatError. -/
theorem C5_date_validation_counterexample :
    specIsYYYYMMDD (chars "2024-2-3") = false ∧
      parse_match_data (chars "2024-2-3 | A (1:1) B | X | 10")
        = Except.ok ⟨chars "2024-2-3", chars "A", 1, chars "B", 1, chars "X", 10⟩ :=
  ⟨by decide, by rfl⟩

/-- C5 (amended): parsing fails with a FormatError whenever the date segment
(the text before the first `" | "`) does not pass the code's actual check —
splitting on `'-'` into exactly three Python-`int()`-parsable components
that form a real calendar date with year 1–9999; parsing succeeds only when
the date segment passes that check; in particular the nonexistent date
2024-02-30 is rejected with a FormatError. -/
theorem C5_date_validation :
    (∀ l : Str, parseDate ((splitSep sepBar l).headI) = none →
      ∃ e, parse_match_data l = Except.error e ∧ e.isFormat = true) ∧
    (∀ (l : Str) (r : MatchRecord), parse_match_data l = Except.ok r →
      parseDate ((splitSep sepBar l).headI) ≠ none) ∧
    (parse_match_data (chars "2024-02-30 | A (1:1) B | X | 10")
        = Except.error ParseError.badDate ∧
      ParseError.badDate.isFormat = true) := by
  refine ⟨?_, ?_, by rfl, rfl⟩
  · intro l h
    match hp : splitSep sepBar l with
    | [] => exact ⟨.badParts, by simp [parse_match_data, hp], rfl⟩
    | [a] => exact ⟨.badParts, by simp [parse_match_data, hp], rfl⟩
    | [a, b] => exact ⟨.badParts, by simp [parse_match_data, hp], rfl⟩
    | [a, b, c] => exact ⟨.badParts, by simp [parse_match_data, hp], rfl⟩
    | [a, b, c, d] =>
      rw [hp] at h
      simp only [List.headI] at h
      exact ⟨.badDate, by simp [parse_match_data, hp, h], rfl⟩
    | a :: b :: c :: d :: e :: rest =>
      exact ⟨.badParts, by simp [parse_match_data, hp], rfl⟩
  · intro l r h
    match hp : splitSep sepBar l with
    | [] => simp [parse_match_data, hp] at h
    | [a] => simp [parse_match_data, hp] at h
    | [a, b] => simp [parse_match_data, hp] at h
    | [a, b, c] => simp [parse_match_data, hp] at h
    | [a, b, c, d] =>
      simp only [List.headI]
      match hpd : parseDate a with
      | none => simp [parse_match_data, hp, hpd] at h
      | some v => simp [hpd]
    | a :: b :: c :: d :: e :: rest => simp [parse_match_data, hp] at h

/-- Witness for C5's failure clause at a line whose month is out of range. -/
theorem C5_date_validation_witness :
    ∃ e, parse_match_data (chars "2024-13-01 | A (1:1) B | X | 10")
        = Except.error e ∧ e.isFormat = true :=
  C5_date_validation.1 (chars "2024-13-01 | A (1:1) B | X | 10") (by decide)

/-!  Digit-string lemmas. -/

theorem digitChar_spec (n : Nat) (h : n < 10) :
    (digitChar n).isDigit = true ∧ (digitChar n).toNat = 48 + n := by
  interval_cases n <;> exact ⟨by decide, by decide⟩

theorem natDigits_all_digits (n : Nat) : ∀ c ∈ natDigits n, c.isDigit = true := by
  induction n using Nat.strong_induction_on with
  | _ n ih =>
    rw [natDigits]
    by_cases h : n < 10
    · rw [dif_pos h]
      intro c hc
      rw [List.mem_singleton.1 hc]
      exact (digitChar_spec n h).1
    · rw [dif_neg h]
      intro c hc
      rcases List.mem_append.1 hc with hc | hc
      · exact ih (n / 10) (Nat.div_lt_self (by omega) (by omega)) c hc
      · rw [List.mem_singleton.1 hc]
        exact (digitChar_spec (n % 10) (Nat.mod_lt n (by omega))).1

theorem natDigits_ne_nil (n : Nat) : natDigits n ≠ [] := by
  rw [natDigits]
  by_cases h : n < 10
  · rw [dif_pos h]; simp
  · rw [dif_neg h]; simp

theorem digitsToNat_natDigits (n : Nat) : digitsToNat (natDigits n) = n := by
  suffices hgen : ∀ (m : Nat) (acc : Nat),
      (natDigits m).foldl (fun a c => a * 10 + (c.toNat - 48)) acc
        = acc * 10 ^ (natDigits m).length + m by
    have := hgen n 0
    simpa [digitsToNat] using this
  intro m
  induction m using Nat.strong_induction_on with
  | _ m ih =>
    intro acc
    rw [natDigits]
    by_cases h : m < 10
    · rw [dif_pos h]
      simp [List.foldl, (digitChar_spec m h).2]
    · rw [dif_neg h]
      rw [List.foldl_append]
      rw [ih (m / 10) (Nat.div_lt_self (by omega) (by omega)) acc]
      simp only [List.foldl, (digitChar_spec (m % 10) (Nat.mod_lt m (by omega))).2,
        List.length_append, List.length_cons, List.length_nil]
      rw [pow_succ]
      have h2 : 10 * (m / 10) + m % 10 = m := Nat.div_add_mod m 10
      ring_nf
      omega

theorem pyDigitsGo_all (l : Str) : ∀ acc : Nat, (∀ c ∈ l, c.isDigit = true) →
    pyDigitsGo acc l = some (l.foldl (fun a c => a * 10 + (c.toNat - 48)) acc) := by
  induction l with
  | nil => intro acc h; rfl
  | cons c rest ih =>
    intro acc h
    have hc := h c (by simp)
    have hcu : c ≠ '_' := ne_of_isDigit c '_' hc (by decide)
    have hstep : pyDigitsGo acc (c :: rest)
        = pyDigitsGo (acc * 10 + (c.toNat - 48)) rest := by
      rw [pyDigitsGo.eq_def]
      simp [hcu, hc]
    rw [hstep, ih _ (fun x hx => h x (by simp [hx])), List.foldl_cons]

theorem pyStrip_of_digits (l : Str) (h : ∀ c ∈ l, c.isDigit = true) :
    pyStrip l = l := by
  refine pyStrip_eq_self_of l ?_ ?_
  · intro x hx
    obtain ⟨ys, rfl⟩ := List.head?_eq_some_iff.1 hx
    exact isPySpace_of_isDigit x (h x (by simp))
  · intro x hx
    obtain ⟨ys, rfl⟩ := List.getLast?_eq_some_iff.1 hx
    exact isPySpace_of_isDigit x (h x (by simp))

theorem pyInt_of_digits (l : Str) (hne : l ≠ []) (h : ∀ c ∈ l, c.isDigit = true) :
    pyInt l = some ((digitsToNat l : Nat) : Int) := by
  match l, hne with
  | c :: rest, _ =>
    have hc := h c (by simp)
    have hstrip : pyStrip (c :: rest) = c :: rest := pyStrip_of_digits _ h
    have hplus : c ≠ '+' := ne_of_isDigit c '+' hc (by decide)
    have hminus : c ≠ '-' := ne_of_isDigit c '-' hc (by decide)
    simp only [pyInt, hstrip, if_neg hplus, if_neg hminus]
    simp only [pyDigits, hc, if_pos rfl]
    rw [pyDigitsGo_all rest _ (fun x hx => h x (by simp [hx]))]
    simp [digitsToNat, List.foldl]

theorem pyInt_natDigits (n : Nat) :
    pyInt (natDigits n) = some ((n : Nat) : Int) := by
  rw [pyInt_of_digits (natDigits n) (natDigits_ne_nil n) (natDigits_all_digits n),
    digitsToNat_natDigits]

/-!  Regex-matcher lemmas. -/

theorem splitFirstChar_append (k : Char) (a b : Str) (ha : k ∉ a) :
    splitFirstChar k (a ++ k :: b) = some (a, b) := by
  induction a with
  | nil => simp [splitFirstChar]
  | cons c t ih =>
    have hct : k ∉ t := fun hm => ha (by simp [hm])
    have hcne : c ≠ k := fun he => ha (by simp [he])
    simp only [List.cons_append, splitFirstChar, if_neg hcne, List.append_eq,
      ih hct]

theorem head?_append_left (a b : Str) (hne : a ≠ []) : (a ++ b).head? = a.head? := by
  match a, hne with
  | c :: t, _ => rfl

theorem getLast?_append_right (a b : Str) (hne : b ≠ []) :
    (a ++ b).getLast? = b.getLast? := by
  rw [List.getLast?_append]
  match hb : b.getLast? with
  | some z => rfl
  | none => exact absurd (List.getLast?_eq_none_iff.1 hb) hne

theorem pyStrip_append_space (a : Str) (hstr : pyStrip a = a) (hne : a ≠ []) :
    pyStrip (a ++ [' ']) = a := by
  obtain ⟨hh, hl⟩ := head_last_not_space_of_strip a hstr
  have h1 : (a ++ [' ']).dropWhile isPySpace = a ++ [' '] :=
    dropWhile_eq_self_of_head _ _ (by
      intro x hx
      rw [head?_append_left a [' '] hne] at hx
      exact hh x hx)
  unfold pyStrip
  rw [h1, List.reverse_append]
  have h2 : ([' '].reverse ++ a.reverse).dropWhile isPySpace
      = a.reverse.dropWhile isPySpace :=
    dropWhile_append_all isPySpace [' '].reverse a.reverse
      (by intro c hc; simp at hc; simp [hc, isPySpace])
  rw [h2, dropWhile_eq_self_of_head _ _ (by
    intro x hx
    rw [List.head?_reverse] at hx
    exact hl x hx), a.reverse_reverse]

theorem pyStrip_cons_space (a : Str) (hstr : pyStrip a = a) (hne : a ≠ []) :
    pyStrip (' ' :: a) = a := by
  obtain ⟨hh, hl⟩ := head_last_not_space_of_strip a hstr
  unfold pyStrip
  have h1 : (' ' :: a).dropWhile isPySpace = a := by
    rw [show (' ' :: a) = [' '] ++ a by rfl]
    rw [dropWhile_append_all isPySpace [' '] a (by intro c hc; simp at hc; simp [hc, isPySpace])]
    exact dropWhile_eq_self_of_head _ _ hh
  rw [h1]
  rw [dropWhile_eq_self_of_head _ _ (by
    intro x hx
    rw [List.head?_reverse] at hx
    exact hl x hx)]
  exact a.reverse_reverse

theorem matchTrailing_append_space (a : Str) (hstr : pyStrip a = a) (hne : a ≠ [])
    (hn : '\n' ∉ a) : matchTrailing (a ++ [' ']) = some a := by
  simp only [matchTrailing, pyStrip_append_space a hstr hne]
  simp [hn]

theorem matchTrailing_cons_space (a : Str) (hstr : pyStrip a = a) (hne : a ≠ [])
    (hn : '\n' ∉ a) : matchTrailing (' ' :: a) = some a := by
  simp only [matchTrailing, pyStrip_cons_space a hstr hne]
  simp [hn]

theorem matchTSAux_skip (xs : Str) :
    ∀ (pre rest : Str), '(' ∉ xs →
      matchTSAux pre (xs ++ rest) = matchTSAux (xs.reverse ++ pre) rest := by
  induction xs with
  | nil => intro pre rest h; rfl
  | cons c t ih =>
    intro pre rest h
    have hcne : c ≠ '(' := fun he => h (by simp [he])
    have hct : '(' ∉ t := fun hm => h (by simp [hm])
    simp only [List.cons_append, matchTSAux, if_neg hcne, List.append_eq]
    rw [ih (c :: pre) rest hct]
    simp

theorem tailMatch_concrete (s1 s2 t2 : Str)
    (hs1ne : s1 ≠ []) (hs1 : ':' ∉ s1) (hs2ne : s2 ≠ []) (hs2 : ')' ∉ s2)
    (ht2 : pyStrip t2 = t2) (ht2ne : t2 ≠ []) (ht2n : '\n' ∉ t2) :
    tailMatch (s1 ++ ':' :: (s2 ++ ')' :: (' ' :: t2))) = some (s1, s2, t2) := by
  simp only [tailMatch, splitFirstChar_append ':' s1 _ hs1]
  simp only [if_neg hs1ne]
  simp only [splitFirstChar_append ')' s2 _ hs2]
  simp only [if_neg hs2ne]
  simp only [matchTrailing_cons_space t2 ht2 ht2ne ht2n]

theorem matchTS_concrete (t1 s1 s2 t2 : Str)
    (ht1 : pyStrip t1 = t1) (ht1ne : t1 ≠ []) (ht1p : '(' ∉ t1) (ht1n : '\n' ∉ t1)
    (hs1ne : s1 ≠ []) (hs1 : ':' ∉ s1) (hs2ne : s2 ≠ []) (hs2 : ')' ∉ s2)
    (ht2 : pyStrip t2 = t2) (ht2ne : t2 ≠ []) (ht2n : '\n' ∉ t2) :
    matchTS ((t1 ++ [' ']) ++ ('(' :: (s1 ++ ':' :: (s2 ++ ')' :: (' ' :: t2)))))
      = some (t1, s1, s2, t2) := by
  unfold matchTS
  rw [matchTSAux_skip (t1 ++ [' ']) [] _ (by
    intro hm
    rcases List.mem_append.1 hm with hm | hm
    · exact ht1p hm
    · simp at hm)]
  simp only [matchTSAux, if_pos rfl]
  rw [List.append_nil, List.reverse_reverse]
  rw [matchTrailing_append_space t1 ht1 ht1ne ht1n]
  rw [tailMatch_concrete s1 s2 t2 hs1ne hs1 hs2ne hs2 ht2 ht2ne ht2n]
  rfl

/-!  From the spec-side date format to the code's date check. -/

theorem spec_shape (ds : Str) (h : specIsYYYYMMDD ds = true) :
    ∃ y1 y2 y3 y4 m1 m2 d1 d2 : Char,
      ds = [y1, y2, y3, y4, '-', m1, m2, '-', d1, d2] ∧
      y1.isDigit = true ∧ y2.isDigit = true ∧ y3.isDigit = true ∧ y4.isDigit = true ∧
      m1.isDigit = true ∧ m2.isDigit = true ∧ d1.isDigit = true ∧ d2.isDigit = true ∧
      validYMD
        (((y1.toNat - 48) * 1000 + (y2.toNat - 48) * 100
          + (y3.toNat - 48) * 10 + (y4.toNat - 48) : Nat))
        (((m1.toNat - 48) * 10 + (m2.toNat - 48) : Nat))
        (((d1.toNat - 48) * 10 + (d2.toNat - 48) : Nat)) = true := by
  match ds with
  | [] => simp [specIsYYYYMMDD] at h
  | [a1] => simp [specIsYYYYMMDD] at h
  | [a1, a2] => simp [specIsYYYYMMDD] at h
  | [a1, a2, a3] => simp [specIsYYYYMMDD] at h
  | [a1, a2, a3, a4] => simp [specIsYYYYMMDD] at h
  | [a1, a2, a3, a4, a5] => simp [specIsYYYYMMDD] at h
  | [a1, a2, a3, a4, a5, a6] => simp [specIsYYYYMMDD] at h
  | [a1, a2, a3, a4, a5, a6, a7] => simp [specIsYYYYMMDD] at h
  | [a1, a2, a3, a4, a5, a6, a7, a8] => simp [specIsYYYYMMDD] at h
  | [a1, a2, a3, a4, a5, a6, a7, a8, a9] => simp [specIsYYYYMMDD] at h
  | a1 :: a2 :: a3 :: a4 :: a5 :: a6 :: a7 :: a8 :: a9 :: a10 :: a11 :: rest =>
    simp [specIsYYYYMMDD] at h
  | [y1, y2, y3, y4, hc1, m1, m2, hc2, d1, d2] =>
    simp only [specIsYYYYMMDD, Bool.and_eq_true, decide_eq_true_eq] at h
    obtain ⟨⟨⟨⟨⟨⟨⟨⟨⟨⟨hy1, hy2⟩, hy3⟩, hy4⟩, hh1⟩, hm1⟩, hm2⟩, hh2⟩, hd1⟩, hd2⟩, hval⟩ := h
    subst hh1
    subst hh2
    exact ⟨y1, y2, y3, y4, m1, m2, d1, d2, rfl, hy1, hy2, hy3, hy4, hm1, hm2, hd1,
      hd2, hval⟩

theorem digitsToNat_four (a b c d : Char) :
    digitsToNat [a, b, c, d]
      = (a.toNat - 48) * 1000 + (b.toNat - 48) * 100 + (c.toNat - 48) * 10
        + (d.toNat - 48) := by
  simp [digitsToNat, List.foldl]
  ring

theorem digitsToNat_two (a b : Char) :
    digitsToNat [a, b] = (a.toNat - 48) * 10 + (b.toNat - 48) := by
  simp [digitsToNat, List.foldl]

theorem not_mem_of_all_digits (k : Char) (hk : k.isDigit = false) (l : Str)
    (h : ∀ c ∈ l, c.isDigit = true) : k ∉ l := by
  intro hm
  have h2 := h k hm
  rw [h2] at hk
  cases hk

theorem parseDate_of_spec (ds : Str) (h : specIsYYYYMMDD ds = true) :
    (∃ v, parseDate ds = some v) ∧ '|' ∉ ds := by
  obtain ⟨y1, y2, y3, y4, m1, m2, d1, d2, rfl, hy1, hy2, hy3, hy4, hm1, hm2, hd1,
    hd2, hval⟩ := spec_shape ds h
  have hyd : ∀ c ∈ [y1, y2, y3, y4], c.isDigit = true := by
    intro c hc
    simp only [List.mem_cons, List.not_mem_nil, or_false] at hc
    rcases hc with h1 | h1 | h1 | h1 <;> (subst h1; assumption)
  have hmd : ∀ c ∈ [m1, m2], c.isDigit = true := by
    intro c hc
    simp only [List.mem_cons, List.not_mem_nil, or_false] at hc
    rcases hc with h1 | h1 <;> (subst h1; assumption)
  have hdd : ∀ c ∈ [d1, d2], c.isDigit = true := by
    intro c hc
    simp only [List.mem_cons, List.not_mem_nil, or_false] at hc
    rcases hc with h1 | h1 <;> (subst h1; assumption)
  constructor
  · have hsplit : splitSep ['-'] [y1, y2, y3, y4, '-', m1, m2, '-', d1, d2]
        = [[y1, y2, y3, y4], [m1, m2], [d1, d2]] := by
      have e1 : [y1, y2, y3, y4, '-', m1, m2, '-', d1, d2]
          = [y1, y2, y3, y4] ++ '-' :: ([m1, m2] ++ '-' :: [d1, d2]) := rfl
      rw [e1]
      rw [splitSep_cons_of_splitFirst ['-'] _ _ _ (by simp)
        (splitFirst_dash_append _ _ (not_mem_of_all_digits '-' (by decide) _ hyd))]
      rw [splitSep_cons_of_splitFirst ['-'] _ _ _ (by simp)
        (splitFirst_dash_append _ _ (not_mem_of_all_digits '-' (by decide) _ hmd))]
      rw [splitSep_single_of_none ['-'] _
        (splitFirst_none_of_not_mem ['-'] _ '-' (by simp)
          (not_mem_of_all_digits '-' (by decide) _ hdd))]
    have hiy := pyInt_of_digits [y1, y2, y3, y4] (by simp) hyd
    have him := pyInt_of_digits [m1, m2] (by simp) hmd
    have hid := pyInt_of_digits [d1, d2] (by simp) hdd
    refine ⟨(((digitsToNat [y1, y2, y3, y4] : Nat) : Int),
      ((digitsToNat [m1, m2] : Nat) : Int), ((digitsToNat [d1, d2] : Nat) : Int)), ?_⟩
    simp only [parseDate, hsplit, hiy, him, hid]
    rw [if_pos (show validYMD ((digitsToNat [y1, y2, y3, y4] : Nat) : Int)
        ((digitsToNat [m1, m2] : Nat) : Int) ((digitsToNat [d1, d2] : Nat) : Int) = true by
      rw [digitsToNat_four, digitsToNat_two, digitsToNat_two]
      exact hval)]
  · intro hm
    have hsplit2 : [y1, y2, y3, y4, '-', m1, m2, '-', d1, d2]
        = [y1, y2, y3, y4] ++ ['-'] ++ [m1, m2] ++ ['-'] ++ [d1, d2] := rfl
    rw [hsplit2] at hm
    simp only [List.mem_append] at hm
    rcases hm with ((((hm | hm) | hm) | hm) | hm)
    · exact not_mem_of_all_digits '|' (by decide) _ hyd hm
    · simp at hm
    · exact not_mem_of_all_digits '|' (by decide) _ hmd hm
    · simp at hm
    · exact not_mem_of_all_digits '|' (by decide) _ hdd hm

theorem getLast?_cons_of_ne_nil (c : Char) (l : Str) (h : l ≠ []) :
    (c :: l).getLast? = l.getLast? := by
  rw [show c :: l = [c] ++ l from rfl]
  exact getLast?_append_right [c] l h

/-- C6 counterexample: with team1 `"A | B"` — a non-empty trimmed name — the
line splits into five `" | "` segments, so parsing fails with the
four-parts FormatError instead of succeeding with that team name as the
claim requires. -/
theorem C6_parser_success_counterexample :
    parse_match_data (chars "2024-01-01 | A | B (2:0) C | Arena | 100")
      = Except.error ParseError.badParts := by rfl

/-- C6 (amended): the success contract holds for team names, stadium names
and scores that cannot interfere with the line structure: both team names
and the stadium contain no `'|'`, the first team name contains no `'('`,
team names contain no newline, and scores/attendance are rendered as
canonical decimal digits.  Under those conditions parsing the assembled
line succeeds and returns the fully populated record with exactly those
field values; the cited concrete example also holds. -/
theorem C6_parser_success :
    (∀ (ds t1 t2 st : Str) (n1 n2 a : Nat),
      specIsYYYYMMDD ds = true →
      pyStrip t1 = t1 → t1 ≠ [] → '|' ∉ t1 → '(' ∉ t1 → '\n' ∉ t1 →
      pyStrip t2 = t2 → t2 ≠ [] → '|' ∉ t2 → '\n' ∉ t2 →
      pyStrip st = st → st ≠ [] → '|' ∉ st →
      0 < a →
      parse_match_data
        (ds ++ sepBar ++
          (((t1 ++ [' ']) ++
              ('(' :: (natDigits n1 ++ ':' :: (natDigits n2 ++ ')' :: (' ' :: t2)))))
            ++ sepBar ++ (st ++ sepBar ++ natDigits a)))
        = Except.ok ⟨ds, t1, n1, t2, n2, st, a⟩) ∧
    (parse_match_data (chars "2024-01-01 | Alpha (2:0) Beta | Arena | 100")
      = Except.ok ⟨chars "2024-01-01", chars "Alpha", 2, chars "Beta", 0,
          chars "Arena", 100⟩) := by
  refine ⟨?_, by rfl⟩
  intro ds t1 t2 st n1 n2 a hspec ht1 ht1ne ht1bar ht1paren ht1nl ht2 ht2ne ht2bar
    ht2nl hst hstne hstbar ha
  obtain ⟨⟨v, hpd⟩, hds⟩ := parseDate_of_spec ds hspec
  have hs1d := natDigits_all_digits n1
  have hs2d := natDigits_all_digits n2
  have hattd := natDigits_all_digits a
  have hs1ne := natDigits_ne_nil n1
  have hs2ne := natDigits_ne_nil n2
  have hmid : '|' ∉ ((t1 ++ [' ']) ++
      ('(' :: (natDigits n1 ++ ':' :: (natDigits n2 ++ ')' :: (' ' :: t2))))) := by
    intro hm
    rcases List.mem_append.1 hm with hm | hm
    · rcases List.mem_append.1 hm with hm | hm
      · exact ht1bar hm
      · simp at hm
    · rcases List.mem_cons.1 hm with hm | hm
      · exact absurd hm (by decide)
      · rcases List.mem_append.1 hm with hm | hm
        · exact not_mem_of_all_digits '|' (by decide) _ hs1d hm
        · rcases List.mem_cons.1 hm with hm | hm
          · exact absurd hm (by decide)
          · rcases List.mem_append.1 hm with hm | hm
            · exact not_mem_of_all_digits '|' (by decide) _ hs2d hm
            · rcases List.mem_cons.1 hm with hm | hm
              · exact absurd hm (by decide)
              · rcases List.mem_cons.1 hm with hm | hm
                · exact absurd hm (by decide)
                · exact ht2bar hm
  have hsplit := splitSep_four ds _ st (natDigits a) hds hmid hstbar
    (not_mem_of_all_digits '|' (by decide) _ hattd)
  have ht1facts := head_last_not_space_of_strip t1 ht1
  have ht2facts := head_last_not_space_of_strip t2 ht2
  have hmidstrip : pyStrip ((t1 ++ [' ']) ++
      ('(' :: (natDigits n1 ++ ':' :: (natDigits n2 ++ ')' :: (' ' :: t2)))))
      = ((t1 ++ [' ']) ++
        ('(' :: (natDigits n1 ++ ':' :: (natDigits n2 ++ ')' :: (' ' :: t2))))) := by
    refine pyStrip_eq_self_of _ ?_ ?_
    · intro x hx
      rw [head?_append_left _ _ (by simp [ht1ne]), head?_append_left t1 [' '] ht1ne] at hx
      exact ht1facts.1 x hx
    · intro x hx
      rw [getLast?_append_right _ _ (by simp),
        getLast?_cons_of_ne_nil '(' _ (by simp),
        getLast?_append_right _ _ (by simp),
        getLast?_cons_of_ne_nil ':' _ (by simp),
        getLast?_append_right _ _ (by simp),
        getLast?_cons_of_ne_nil ')' _ (by simp),
        getLast?_cons_of_ne_nil ' ' _ ht2ne] at hx
      exact ht2facts.2 x hx
  have hts := matchTS_concrete t1 (natDigits n1) (natDigits n2) t2 ht1 ht1ne ht1paren
    ht1nl hs1ne (not_mem_of_all_digits ':' (by decide) _ hs1d) hs2ne
    (not_mem_of_all_digits ')' (by decide) _ hs2d) ht2 ht2ne ht2nl
  simp only [parse_match_data, hsplit, hpd, hmidstrip, hts, ht1, ht2, hst,
    pyInt_natDigits]
  rw [if_neg (by
    push_neg
    exact ⟨ht1ne, ht2ne, hstne⟩)]
  rw [if_neg (by omega)]
  rw [if_neg (by omega)]
  simp

/-- Witness for C6's amended success contract at the concrete example line
rendered as component concatenation. -/
theorem C6_parser_success_witness :
    parse_match_data
      ((chars "2024-01-01") ++ sepBar ++
        ((((chars "Alpha") ++ [' ']) ++
            ('(' :: (natDigits 2 ++ ':' :: (natDigits 0 ++ ')' :: (' ' :: chars "Beta")))))
          ++ sepBar ++ ((chars "Arena") ++ sepBar ++ natDigits 100)))
      = Except.ok ⟨chars "2024-01-01", chars "Alpha", 2, chars "Beta", 0,
          chars "Arena", 100⟩ :=
  C6_parser_success.1 (chars "2024-01-01") (chars "Alpha") (chars "Beta")
    (chars "Arena") 2 0 100 (by decide) (by decide) (by decide) (by decide)
    (by decide) (by decide) (by decide) (by decide) (by decide) (by decide)
    (by decide) (by decide) (by decide) (by decide)
